import Mathlib

/-!
Verification development for the event-driven SystemVerilog simulator
(`eda_tool`).  The definitions below are a shallow embedding of the C++
sources: `src/sim/value.cpp`, `src/sim/kernel.cpp`, `src/ir/ir_builder.cpp`,
`src/frontend/elab.cpp` and `src/frontend/const_eval.hpp`.  Machine
integers are modelled as `Nat`/`Int` with explicit reductions modulo
`2 ^ 64`; raw statement pointers are modelled as indices into a statement
arena; `std::function` closures are modelled by a small closed datatype
covering exactly the closures the kernel creates.
-/

namespace EdaTool

/-! ## 4-state logic and `Value` (src/sim/value.hpp, value.cpp) -/

inductive Logic4 where
  | L0
  | L1
  | LX
  | LZ
deriving DecidableEq, Repr

open Logic4

def logic_and (a b : Logic4) : Logic4 :=
  if a = L0 ∨ b = L0 then L0
  else if a = L1 ∧ b = L1 then L1
  else if a = LZ ∨ b = LZ then LX
  else LX

def logic_or (a b : Logic4) : Logic4 :=
  if a = L1 ∨ b = L1 then L1
  else if a = L0 ∧ b = L0 then L0
  else if a = LZ ∨ b = LZ then LX
  else LX

def logic_xor (a b : Logic4) : Logic4 :=
  if a = LX ∨ b = LX ∨ a = LZ ∨ b = LZ then LX
  else if a = b then L0 else L1

def logic_not (a : Logic4) : Logic4 :=
  if a = L0 then L1
  else if a = L1 then L0
  else LX

/-- `Value`: sequence of `Logic4` bits, LSB first, width = length. -/
structure Value where
  bits : List Logic4
deriving DecidableEq, Repr

def Value.width (v : Value) : Nat := v.bits.length

/-- `Value::get`; reads of in-range indices only occur in the sources. -/
def Value.get (v : Value) (i : Nat) : Logic4 := v.bits.getD i LX

/-- `Value(width, init)`. -/
def Value.filled (w : Nat) (init : Logic4) : Value := ⟨List.replicate w init⟩

def logic4_to_char (v : Logic4) : Char :=
  match v with
  | L0 => '0'
  | L1 => '1'
  | LX => 'x'
  | LZ => 'z'

def char_to_logic4 (c : Char) : Logic4 :=
  if c = '0' then L0
  else if c = '1' then L1
  else if c = 'x' ∨ c = 'X' then LX
  else if c = 'z' ∨ c = 'Z' then LZ
  else LX

/-- `Value::to_string`: MSB first. -/
def Value.to_string (v : Value) : List Char :=
  v.bits.reverse.map logic4_to_char

/-- `Value::from_binary_string`: char `size-1-i` becomes bit `i`. -/
def Value.from_binary_string (s : List Char) : Value :=
  ⟨s.reverse.map char_to_logic4⟩

/-- `Value::from_uint`: bit `i` is `(x >> i) & 1` (widths used are ≤ 64). -/
def Value.from_uint (w : Nat) (x : Nat) : Value :=
  ⟨(List.range w).map fun i => if x.testBit i then L1 else L0⟩

/-! ## Kernel expression evaluation (src/sim/kernel.cpp) -/

/-- `value_to_uint`: bits valued 1 among the low `min(width,64)` contribute
their positional weight (the C++ accumulates disjoint powers of two with
`|=`, which coincides with the sum). -/
def value_to_uint (v : Value) : Nat :=
  ((List.range (min v.width 64)).map fun i => if v.get i = L1 then 2 ^ i else 0).sum

def TWO64 : Nat := 2 ^ 64

/-- Decimal `strtoull`: skip spaces, optional sign, longest digit prefix,
result reduced modulo `2 ^ 64` (negative sign wraps). -/
def strtoull10 (s : List Char) : Nat :=
  let s1 := s.dropWhile (fun c => c = ' ' ∨ c = '\t' ∨ c = '\n')
  let signNeg := s1.headD ' ' = '-'
  let s2 := if s1.headD ' ' = '-' ∨ s1.headD ' ' = '+' then s1.tail else s1
  let digits := s2.takeWhile Char.isDigit
  let n := digits.foldl (fun acc c => (acc * 10 + (c.toNat - '0'.toNat)) % TWO64) 0
  if signNeg then (TWO64 - n) % TWO64 else n

/-- `parse_simple_int_literal`. -/
def parse_simple_int_literal (s : List Char) : Nat :=
  let isBin := ¬s.isEmpty ∧
    s.all (fun c => c = '0' ∨ c = '1' ∨ c = 'x' ∨ c = 'X' ∨ c = 'z' ∨ c = 'Z')
  if isBin then
    s.foldl (fun v c => (v * 2 + (if c = '1' then 1 else 0)) % TWO64) 0
  else
    strtoull10 s

def hexDigitVal (c : Char) : Option Nat :=
  if '0' ≤ c ∧ c ≤ '9' then some (c.toNat - '0'.toNat)
  else if 'a' ≤ c ∧ c ≤ 'f' then some (10 + c.toNat - 'a'.toNat)
  else if 'A' ≤ c ∧ c ≤ 'F' then some (10 + c.toNat - 'A'.toNat)
  else none

/-- Expand hex digits into binary chars, MSB of each nibble first,
skipping non-hex characters (`eval_expr`, Const `'h` case). -/
def hexToBinChars (digits : List Char) : List Char :=
  digits.foldl (fun bin c =>
    match hexDigitVal c with
    | none => bin
    | some val =>
        bin ++ ((List.range 4).map fun k => if val.testBit (3 - k) then '1' else '0')) []

def apostCh : Char := Char.ofNat 39

def isBinLit (cs : List Char) : Bool :=
  ¬cs.isEmpty ∧
    cs.all (fun c => c = '0' ∨ c = '1' ∨ c = 'x' ∨ c = 'X' ∨ c = 'z' ∨ c = 'Z')

/-- Bare-literal path of the Const case of `Kernel::eval_expr`. -/
def evalBareLiteral (cs : List Char) : Value :=
  if isBinLit cs then Value.from_binary_string cs
  else Value.from_uint 32 (parse_simple_int_literal cs)

/-- Const case of `Kernel::eval_expr`: based literals `<size>'b/d/h…`,
else the bare-literal path. -/
def evalConstLiteral (cs : List Char) : Value :=
  let pos := cs.findIdx (fun c => c = apostCh)
  if pos < cs.length ∧ pos + 2 < cs.length then
    let base := (cs.getD (pos + 1) ' ').toLower
    let digits := cs.drop (pos + 2)
    if base = 'b' then Value.from_binary_string digits
    else if base = 'd' then Value.from_uint 32 (parse_simple_int_literal digits)
    else if base = 'h' then
      let bin := hexToBinChars digits
      if bin.isEmpty then Value.filled 1 LX else Value.from_binary_string bin
    else evalBareLiteral cs
  else evalBareLiteral cs

inductive RtlUnOp where
  | Plus
  | Minus
  | Not
  | BitNot
deriving DecidableEq, Repr

inductive RtlBinOp where
  | Add
  | Sub
  | Mul
  | Div
  | Mod
  | And
  | Or
  | Xor
  | LogicalAnd
  | LogicalOr
  | Eq
  | Neq
  | CaseEq
  | CaseNeq
  | Lt
  | Gt
  | Le
  | Ge
  | Shl
  | Shr
  | Ashl
  | Ashr
deriving DecidableEq, Repr

/-- `RtlExpr` (src/ir/rtl_ir.hpp).  The C++ struct has nullable children
which `eval_expr` dereferences unconditionally; the embedding covers the
well-formed trees the IR builder produces. -/
inductive RtlExpr where
  | Ref (ref_name : String)
  | ConstL (const_literal : List Char)
  | Unary (un_op : RtlUnOp) (un_operand : RtlExpr)
  | Binary (bin_op : RtlBinOp) (lhs rhs : RtlExpr)
deriving DecidableEq, Repr

/-- Signal map: association list standing for `unordered_map<string,Value>`. -/
abbrev SigMap : Type := List (String × Value)

def lookupSig (m : SigMap) (name : String) : Option Value :=
  match m with
  | [] => none
  | (k, v) :: rest => if k = name then some v else lookupSig rest name

/-- `operator[]` assignment: replace in place or append. -/
def insertSig (m : SigMap) (name : String) (v : Value) : SigMap :=
  match m with
  | [] => [(name, v)]
  | (k, w) :: rest =>
      if k = name then (k, v) :: rest else (k, w) :: insertSig rest name v

/-- Copy the low `min(width, v.width)` bits into a fresh `Value(width, X)`
(the loop shared by `get_signal_value` and the binary-op `extend` lambda). -/
def copyLowBits (width : Nat) (v : Value) : Value :=
  ⟨(List.range width).map fun i => if i < v.width then v.get i else LX⟩

/-- `Kernel::get_signal_value`. -/
def get_signal_value (signals : SigMap) (name : String) (width : Nat) : Value :=
  match lookupSig signals name with
  | none => Value.filled width LX
  | some v => if v.width = width then v else copyLowBits width v

/-- Width reconciliation in the Binary case of `eval_expr`. -/
def extendValue (width : Nat) (v : Value) : Value :=
  if v.width = width then v else copyLowBits width v

/-- Interpret a `uint64_t` as `int64_t` (`static_cast<int64_t>`). -/
def toInt64 (u : Nat) : Int :=
  if u < 2 ^ 63 then (u : Int) else (u : Int) - (TWO64 : Int)

def mkBit1 (b : Bool) : Value := ⟨[if b then L1 else L0]⟩

/-- Binary case of `Kernel::eval_expr` after both operands are evaluated. -/
def evalBinary (op : RtlBinOp) (lhsv rhsv : Value) : Value :=
  let width0 := max lhsv.width rhsv.width
  let width := if width0 = 0 then 1 else width0
  let l := extendValue width lhsv
  let r := extendValue width rhsv
  let ul := value_to_uint l
  let ur := value_to_uint r
  match op with
  | .Add => Value.from_uint width ((ul + ur) % TWO64)
  | .Sub => Value.from_uint width ((ul + (TWO64 - ur)) % TWO64)
  | .Mul => Value.from_uint width ((ul * ur) % TWO64)
  | .Div => Value.from_uint width (if ur ≠ 0 then ul / ur else 0)
  | .Mod => Value.from_uint width (if ur ≠ 0 then ul % ur else 0)
  | .And => ⟨List.zipWith logic_and l.bits r.bits⟩
  | .Or => ⟨List.zipWith logic_or l.bits r.bits⟩
  | .Xor => ⟨List.zipWith logic_xor l.bits r.bits⟩
  | .LogicalAnd => mkBit1 (ul ≠ 0 ∧ ur ≠ 0)
  | .LogicalOr => mkBit1 (ul ≠ 0 ∨ ur ≠ 0)
  | .Eq => mkBit1 (ul = ur)
  | .CaseEq => mkBit1 (ul = ur)
  | .Neq => mkBit1 (ul ≠ ur)
  | .CaseNeq => mkBit1 (ul ≠ ur)
  | .Lt => mkBit1 (toInt64 ul < toInt64 ur)
  | .Gt => mkBit1 (toInt64 ul > toInt64 ur)
  | .Le => mkBit1 (toInt64 ul ≤ toInt64 ur)
  | .Ge => mkBit1 (toInt64 ul ≥ toInt64 ur)
  | .Shl => Value.from_uint width ((ul <<< (ur % 64)) % TWO64)
  | .Shr => Value.from_uint width (ul >>> (ur % 64))
  | .Ashr => Value.from_uint width (ul >>> (ur % 64))
  | .Ashl => Value.from_uint width ((ul <<< (ur % 64)) % TWO64)

/-- Unary case of `Kernel::eval_expr` after the operand is evaluated. -/
def evalUnary (op : RtlUnOp) (opv : Value) : Value :=
  match op with
  | .Plus => opv
  | .Minus => Value.from_uint opv.width ((TWO64 - value_to_uint opv % TWO64) % TWO64)
  | .Not =>
      let acc := if opv.bits.any (fun b => b = L1) then L1 else L0
      ⟨[if acc = L1 then L0 else L1]⟩
  | .BitNot => ⟨opv.bits.map logic_not⟩

/-- `Kernel::eval_expr`. -/
def eval_expr (signals : SigMap) : RtlExpr → Value
  | .Ref name =>
      let width := match lookupSig signals name with
        | some v => v.width
        | none => 1
      get_signal_value signals name width
  | .ConstL lit => evalConstLiteral lit
  | .Unary op e => evalUnary op (eval_expr signals e)
  | .Binary op l r => evalBinary op (eval_expr signals l) (eval_expr signals r)

/-! ## Scheduler data (src/sim/process.hpp, src/sim/kernel.hpp) -/

inductive SchedRegion where
  | Preponed
  | Active
  | Inactive
  | NBA
  | Postponed
deriving DecidableEq, Repr

/-- `static_cast<int>(region)`. -/
def regionRank : SchedRegion → Nat
  | .Preponed => 0
  | .Active => 1
  | .Inactive => 2
  | .NBA => 3
  | .Postponed => 4

structure SchedKey where
  time : Nat
  delta : Nat
  region : SchedRegion
deriving DecidableEq, Repr

/-- `ScheduledProcess::operator<` — inverted so the `std::priority_queue`
max-heap yields the smallest `(time, delta, region)` at `top()`. -/
def schedProcLt (a b : SchedKey) : Bool :=
  if a.time ≠ b.time then a.time > b.time
  else if a.delta ≠ b.delta then a.delta > b.delta
  else regionRank a.region > regionRank b.region

/-- Strict ascending order on keys, i.e. "a pops before b is possible";
equals `schedProcLt b a`. -/
def keyLt (a b : SchedKey) : Bool :=
  if a.time ≠ b.time then a.time < b.time
  else if a.delta ≠ b.delta then a.delta < b.delta
  else regionRank a.region < regionRank b.region

inductive RtlStmtKind where
  | BlockingAssign
  | NonBlockingAssign
  | Delay
  | Finish
deriving DecidableEq, Repr

inductive RtlProcessKind where
  | Always
  | Initial
deriving DecidableEq, Repr

/-- `RtlStmt`, with arena indices for the `next`/`delay_stmt` pointers
(spec §9 notes this is the pointer-free equivalent). -/
structure RtlStmtNode where
  kind : RtlStmtKind
  lhs_name : String := ""
  rhs : Option RtlExpr := none
  delay_expr : Option RtlExpr := none
  delay_stmt : Option Nat := none
  next : Option Nat := none
deriving DecidableEq, Repr

/-- The owner fields of a `Thread` that `exec_stmt` consults at end of
chain: the owning process's kind and whether its sensitivity is empty. -/
structure OwnerT where
  kind : RtlProcessKind
  sensEmpty : Bool
deriving DecidableEq, Repr

structure ThreadT where
  stmt : Option Nat
  owner : Option OwnerT
  entry : Option Nat
deriving DecidableEq, Repr

/-- The closures the kernel creates (build_processes_from_rtl, drive_signal,
exec_stmt).  Gate closures are not needed by any claim. -/
inductive KAct where
  | thread (th : ThreadT)
  | nbaWrite (name : String) (v : Value)
  | contAssign (lhs : String) (rhs : RtlExpr)
deriving DecidableEq, Repr

structure SchedEntry where
  key : SchedKey
  act : KAct
deriving DecidableEq, Repr

/-- A watcher-map entry: the referenced `Process` and its region
(all processes built from RTL carry `SchedRegion::Active`). -/
structure WatcherRef where
  act : KAct
  region : SchedRegion
deriving DecidableEq, Repr

abbrev WatcherMap : Type := List (String × List WatcherRef)

def watchersOf (m : WatcherMap) (name : String) : List WatcherRef :=
  match m with
  | [] => []
  | (k, ws) :: rest => if k = name then ws else watchersOf rest name

inductive VcdEvent where
  | timeMark (t : Nat)
  | valueMark (name : String) (v : Value)
deriving DecidableEq, Repr

/-- Kernel state (src/sim/kernel.hpp).  The priority queue is kept as a
list in pop order; `pqPush` inserts after existing entries with an equal
key, one admissible determinization of the C++ heap (see the C7 result:
the comparator itself leaves equal-key order unconstrained). -/
structure KState where
  signals : SigMap
  curTime : Nat := 0
  curDelta : Nat := 0
  pq : List SchedEntry := []
  nbaQueue : List KAct := []
  levelW : WatcherMap := []
  posW : WatcherMap := []
  negW : WatcherMap := []
  stopRequested : Bool := false
  vcdEnabled : Bool := false
  vcdLog : List VcdEvent := []
  arena : List RtlStmtNode := []
deriving Repr

def pqPush (pq : List SchedEntry) (e : SchedEntry) : List SchedEntry :=
  match pq with
  | [] => [e]
  | x :: xs => if keyLt e.key x.key then e :: x :: xs else x :: pqPush xs e

/-- `Kernel::schedule`. -/
def schedule (s : KState) (act : KAct) (region : SchedRegion) (delay : Nat) : KState :=
  let key : SchedKey :=
    { time := s.curTime + delay
      delta := if delay = 0 then s.curDelta else 0
      region := region }
  { s with pq := pqPush s.pq ⟨key, act⟩ }

/-- `Kernel::schedule_nba`. -/
def schedule_nba (s : KState) (act : KAct) : KState :=
  { s with nbaQueue := s.nbaQueue ++ [act] }

def scheduleWatcherList (s : KState) (ws : List WatcherRef) : KState :=
  ws.foldl (fun st w => schedule st w.act w.region 0) s

/-- `Kernel::drive_signal`.  The `same` test compares width and every bit,
i.e. `Value` equality. -/
def drive_signal (s : KState) (name : String) (v : Value) (nba : Bool) : KState :=
  if nba then
    schedule_nba s (KAct.nbaWrite name v)
  else
    let oldOpt := lookupSig s.signals name
    let oldBit := match oldOpt with
      | some oldv => if oldv.width > 0 then oldv.get 0 else LX
      | none => LX
    let same : Bool := match oldOpt with
      | some oldv => oldv = v
      | none => false
    if same then s
    else
      let s1 := { s with signals := insertSig s.signals name v }
      let newBit := if v.width > 0 then v.get 0 else LX
      let isPos := oldBit = L0 ∧ newBit = L1
      let isNeg := oldBit = L1 ∧ newBit = L0
      let s2 := scheduleWatcherList s1 (watchersOf s.levelW name)
      let s3 := if isPos then scheduleWatcherList s2 (watchersOf s.posW name) else s2
      if isNeg then scheduleWatcherList s3 (watchersOf s.negW name) else s3

/-- `Kernel::set_signal` (direct write, bypasses scheduling). -/
def set_signal (s : KState) (name : String) (v : Value) : KState :=
  { s with signals := insertSig s.signals name v }

/-- `Kernel::exec_stmt`: iterative walk of the statement chain with
restart-at-entry for free-running always processes.  `fuel` bounds the
number of iterations (the C++ loop can run forever); `none` means the
fuel ran out. -/
def execStmt (fuel : Nat) (s : KState) (cur : Option Nat) (owner : Option OwnerT)
    (entry : Option Nat) : Option KState :=
  match fuel with
  | 0 => none
  | fuel + 1 =>
    match cur with
    | some i =>
      match s.arena.get? i with
      | none => none
      | some st =>
        match st.kind with
        | .BlockingAssign =>
            let s' := match st.rhs with
              | some r => drive_signal s st.lhs_name (eval_expr s.signals r) false
              | none => s
            execStmt fuel s' st.next owner entry
        | .NonBlockingAssign =>
            let s' := match st.rhs with
              | some r => drive_signal s st.lhs_name (eval_expr s.signals r) true
              | none => s
            execStmt fuel s' st.next owner entry
        | .Delay =>
            let d := match st.delay_expr with
              | some de => value_to_uint (eval_expr s.signals de)
              | none => 0
            some (schedule s (KAct.thread ⟨st.next, owner, entry⟩) SchedRegion.Active d)
        | .Finish => some { s with stopRequested := true }
    | none =>
      match owner with
      | some o =>
          if o.kind = RtlProcessKind.Always ∧ o.sensEmpty ∧ ¬s.stopRequested then
            execStmt fuel s entry owner entry
          else some s
      | none => some s

/-- Running one kernel closure (`Process::run`). -/
def runAct (fuel : Nat) (s : KState) : KAct → Option KState
  | .thread th => execStmt fuel s th.stmt th.owner th.entry
  | .nbaWrite name v => some { s with signals := insertSig s.signals name v }
  | .contAssign lhs rhs => some (drive_signal s lhs (eval_expr s.signals rhs) false)

def regionActiveLike (r : SchedRegion) : Bool :=
  r = SchedRegion.Active ∨ r = SchedRegion.Preponed ∨ r = SchedRegion.Inactive

/-- `Kernel::run_active_region`. -/
def runActiveRegion (fuel : Nat) (s : KState) (target : Nat) : Option KState :=
  match fuel with
  | 0 => none
  | fuel + 1 =>
    match s.pq with
    | [] => some s
    | e :: rest =>
        if e.key.time ≠ target then some s
        else if ¬regionActiveLike e.key.region then some s
        else
          let s1 := { s with pq := rest, curDelta := s.curDelta + 1 }
          match runAct fuel s1 e.act with
          | none => none
          | some s2 =>
              if s2.stopRequested then some s2 else runActiveRegion fuel s2 target

def runNbaList (fuel : Nat) (s : KState) : List KAct → Option KState
  | [] => some s
  | p :: ps =>
      match runAct fuel s p with
      | none => none
      | some s' => if s'.stopRequested then some s' else runNbaList fuel s' ps

/-- `Kernel::run_nba_region`: moves the FIFO out (so on a stop the
remaining moved-out entries are dropped) and runs it in push order. -/
def runNbaRegion (fuel : Nat) (s : KState) : Option KState :=
  if s.nbaQueue.isEmpty then some s
  else runNbaList fuel { s with nbaQueue := [] } s.nbaQueue

/-- VCD emission at the head of the run loop: `dump_time` then
`dump_value` for every signal. -/
def emitVcd (s : KState) (t : Nat) : KState :=
  if s.vcdEnabled then
    { s with vcdLog := s.vcdLog ++ [VcdEvent.timeMark t] ++
        s.signals.map (fun kv => VcdEvent.valueMark kv.1 kv.2) }
  else s

/-- Body of the `while` loop of `Kernel::run`. -/
def runLoop (fuel : Nat) (maxTime : Nat) (s : KState) : Option KState :=
  match fuel with
  | 0 => none
  | fuel + 1 =>
    match s.pq with
    | [] => some s
    | e :: _ =>
        if s.stopRequested then some s
        else if maxTime ≠ 0 ∧ e.key.time > maxTime then some s
        else
          let s1 := emitVcd { s with curTime := e.key.time, curDelta := 0 } e.key.time
          match runActiveRegion fuel s1 e.key.time with
          | none => none
          | some s2 =>
              if s2.stopRequested then some s2
              else
                match runNbaRegion fuel s2 with
                | none => none
                | some s3 =>
                    if s3.stopRequested then some s3 else runLoop fuel maxTime s3

/-- `Kernel::run`: clears the stop flag, then loops. -/
def runKernel (fuel : Nat) (maxTime : Nat) (s : KState) : Option KState :=
  runLoop fuel maxTime { s with stopRequested := false }

/-! ## Signal initialisation and watcher registration at load
(src/sim/kernel.cpp: init_signals_from_rtl, build_processes_from_rtl) -/

inductive DataTypeKind where
  | Logic
  | Wire
  | Reg
  | Integer
  | Unknown
deriving DecidableEq, Repr

structure DataType where
  kind : DataTypeKind := DataTypeKind.Unknown
  is_packed : Bool := false
  msb : Int := -1
  lsb : Int := -1
deriving DecidableEq, Repr

/-- `width_from_type` (lambda in init_signals_from_rtl / load_design). -/
def width_from_type (t : DataType) : Nat :=
  if t.is_packed ∧ t.msb ≥ 0 ∧ t.lsb ≥ 0 then
    (if t.msb ≥ t.lsb then t.msb - t.lsb + 1 else t.lsb - t.msb + 1).toNat
  else 1

structure RtlNetM where
  name : String
  type : DataType
deriving DecidableEq, Repr

/-- `Kernel::init_signals_from_rtl`: every net becomes an all-X value of
its declared width. -/
def init_signals_from_rtl (nets : List RtlNetM) : SigMap :=
  nets.foldl (fun m n => insertSig m n.name (Value.filled (width_from_type n.type) LX)) []

inductive RtlSensitivityKind where
  | Level
  | Posedge
  | Negedge
deriving DecidableEq, Repr

structure RtlSensitivityM where
  kind : RtlSensitivityKind
  signal : String
deriving DecidableEq, Repr

/-- The watcher registrations `build_processes_from_rtl` performs for one
always/initial process: lists of signal names entered into the level,
posedge and negedge maps (register_*_dependency skips empty names). -/
structure RegOut where
  level : List String := []
  pos : List String := []
  neg : List String := []
deriving DecidableEq, Repr

def regAppend (out : List String) (sig : String) : List String :=
  if sig = "" then out else out ++ [sig]

/-- Watcher registration for one RTL process (kernel.cpp lines 226–252):
Initial registers nothing; a non-empty sensitivity list is walked, where a
`Level "*"` entry registers a level watch on the signal literally named
`"clk"` when it exists in the signal map, and nothing otherwise; an empty
sensitivity list registers nothing (free-running always). -/
def registerWatchersForProcess (kind : RtlProcessKind)
    (sens : List RtlSensitivityM) (signalNames : List String) : RegOut :=
  if kind = RtlProcessKind.Initial then {}
  else if sens ≠ [] then
    sens.foldl (fun out s =>
      match s.kind with
      | .Posedge => { out with pos := regAppend out.pos s.signal }
      | .Negedge => { out with neg := regAppend out.neg s.signal }
      | .Level =>
          if s.signal = "*" then
            if signalNames.contains "clk" then
              { out with level := regAppend out.level "clk" }
            else out
          else { out with level := regAppend out.level s.signal }) {}
  else {}

/-- `Kernel::register_expr_dependencies` (RHS-dependency walk used for
continuous assigns): every `Ref` leaf becomes a level registration. -/
def register_expr_dependencies : RtlExpr → List String
  | .Ref name => if name = "" then [] else [name]
  | .ConstL _ => []
  | .Unary _ e => register_expr_dependencies e
  | .Binary _ l r => register_expr_dependencies l ++ register_expr_dependencies r

/-! ## Frontend AST (src/frontend/ast.hpp)

`unique_ptr` children are `Option`s; `vector` children are dedicated list
types so that all recursions are structural. -/

inductive BinaryOp where
  | Assign
  | Add
  | Sub
  | Mul
  | Div
  | Mod
  | BitAnd
  | BitOr
  | BitXor
  | LogicalAnd
  | LogicalOr
  | Eq
  | Neq
  | CaseEq
  | CaseNeq
  | Lt
  | Gt
  | Le
  | Ge
  | Shl
  | Shr
  | Ashl
  | Ashr
deriving DecidableEq, Repr

inductive UnaryOp where
  | Plus
  | Minus
  | LogicalNot
  | BitNot
deriving DecidableEq, Repr

inductive CaseKind where
  | Case
  | CaseZ
  | CaseX
deriving DecidableEq, Repr

inductive AlwaysKind where
  | Always
  | AlwaysFF
  | AlwaysComb
  | AlwaysLatch
deriving DecidableEq, Repr

mutual

inductive Expression where
  | Identifier (ident : String)
  | Number (literal : String)
  | StringLit (literal : String)
  | Unary (unary_op : UnaryOp) (unary_operand : Option Expression)
  | Binary (binary_op : BinaryOp) (lhs rhs : Option Expression)
  | Ternary (cond then_expr else_expr : Option Expression)
  | Concatenation (concat_elems : ExprList)
  | Replication (replicate_count : Option Expression) (replicate_elems : ExprList)
  | BitSelect (lhs rhs : Option Expression)

inductive ExprList where
  | nil
  | cons (head : Expression) (tail : ExprList)

end

mutual

inductive Statement where
  | Null
  | Block (block_stmts : StmtList)
  | If (if_cond : Option Expression) (if_then if_else : Option Statement)
  | Case (case_kind : CaseKind) (case_expr : Option Expression) (case_items : CaseItemList)
  | BlockingAssign (lhs rhs : Option Expression)
  | NonBlockingAssign (lhs rhs : Option Expression)
  | Delay (delay_expr : Option Expression) (delay_stmt : Option Statement)
  | ExprStmt (expr : Option Expression)

inductive StmtList where
  | nil
  | cons (head : Statement) (tail : StmtList)

inductive CaseItemT where
  | mk (matchExprs : ExprList) (stmt : Option Statement)

inductive CaseItemList where
  | nil
  | cons (head : CaseItemT) (tail : CaseItemList)

end

structure SensitivityItemT where
  posedge : Bool
  negedge : Bool
  star : Bool
  expr : Option Expression

structure AlwaysT where
  kind : AlwaysKind
  sensitivity_list : List SensitivityItemT
  body : Option Statement

structure InitialT where
  body : Option Statement

structure NetDeclT where
  type : DataType
  name : String
  init : Option Expression

structure VarDeclT where
  type : DataType
  name : String
  init : Option Expression

structure ParamDeclT where
  name : String
  value : Option Expression

structure ContAssignT where
  lhs : Option Expression
  rhs : Option Expression

structure ParamOverrideT where
  name : String
  value : Option Expression

structure PortConnT where
  port_name : String
  expr : Option Expression

structure InstanceT where
  module_name : String
  instance_name : String
  param_overrides : List ParamOverrideT
  port_conns : List PortConnT

structure GenVarDeclT where
  name : String

mutual

inductive ModuleItem where
  | NetDecl (d : Option NetDeclT)
  | VarDecl (d : Option VarDeclT)
  | ParamDecl (d : Option ParamDeclT)
  | ContinuousAssign (d : Option ContAssignT)
  | Always (d : Option AlwaysT)
  | Initial (d : Option InitialT)
  | Instance (d : Option InstanceT)
  | Generate (gen : Option GenerateConstructT)
  | GenVarDecl (d : Option GenVarDeclT)

inductive GenerateConstructT where
  | mk (item : Option GenerateItem)

inductive GenerateItem where
  | Block (block : Option GenerateBlockT)
  | If (if_cond : Option Expression) (if_then if_else : Option GenerateItem)
  | For (genvar_name : String) (for_init for_cond for_step : Option Expression)
      (for_body : Option GenerateItem)
  | CaseG (case_expr : Option Expression) (case_items : CaseItemList)

inductive GenerateBlockT where
  | mk (name : String) (items : ItemList)

inductive ItemList where
  | nil
  | cons (head : ModuleItem) (tail : ItemList)

end

def itemListToList : ItemList → List ModuleItem
  | .nil => []
  | .cons mi rest => mi :: itemListToList rest

/-! ## Constant evaluator (src/frontend/const_eval.hpp, spec §4.2) -/

abbrev ConstEnv : Type := List (String × Int)

structure ConstValue where
  valid : Bool := false
  value : Int := 0
deriving DecidableEq, Repr

def lookupEnv (env : ConstEnv) (name : String) : Option Int :=
  match env with
  | [] => none
  | (k, v) :: rest => if k = name then some v else lookupEnv rest name

/-- Wrap into two's-complement `int64_t` range. -/
def int64_wrap (x : Int) : Int := (x + 2 ^ 63) % 2 ^ 64 - 2 ^ 63

def i64_to_u64 (x : Int) : Nat := (x % (2 ^ 64 : Int)).toNat

def u64_to_i64 (u : Nat) : Int := toInt64 (u % TWO64)

/-- Decimal `strtoll` (`ConstEval::parse_int`): sign and longest digit
prefix; the C saturation on overflow is not reached by any claim. -/
def strtoll10 (s : List Char) : Int :=
  let s1 := s.dropWhile (fun c => c = ' ' ∨ c = '\t' ∨ c = '\n')
  let signNeg := s1.headD ' ' = '-'
  let s2 := if s1.headD ' ' = '-' ∨ s1.headD ' ' = '+' then s1.tail else s1
  let digits := s2.takeWhile Char.isDigit
  let n : Int := digits.foldl (fun acc c => acc * 10 + ((c.toNat : Int) - ('0'.toNat : Int))) 0
  if signNeg then -n else n

/-- Binary case of `ConstEval::eval` once both operands are valid; the
`default` label (Assign, CaseEq, CaseNeq) yields invalid. -/
def constBinApply (op : BinaryOp) (a b : Int) : ConstValue :=
  match op with
  | .Add => ⟨true, int64_wrap (a + b)⟩
  | .Sub => ⟨true, int64_wrap (a - b)⟩
  | .Mul => ⟨true, int64_wrap (a * b)⟩
  | .Div => ⟨true, if b ≠ 0 then Int.tdiv a b else 0⟩
  | .Mod => ⟨true, if b ≠ 0 then Int.tmod a b else 0⟩
  | .BitAnd => ⟨true, u64_to_i64 (Nat.land (i64_to_u64 a) (i64_to_u64 b))⟩
  | .BitOr => ⟨true, u64_to_i64 (Nat.lor (i64_to_u64 a) (i64_to_u64 b))⟩
  | .BitXor => ⟨true, u64_to_i64 (Nat.xor (i64_to_u64 a) (i64_to_u64 b))⟩
  | .LogicalAnd => ⟨true, if a ≠ 0 ∧ b ≠ 0 then 1 else 0⟩
  | .LogicalOr => ⟨true, if a ≠ 0 ∨ b ≠ 0 then 1 else 0⟩
  | .Eq => ⟨true, if a = b then 1 else 0⟩
  | .Neq => ⟨true, if a ≠ b then 1 else 0⟩
  | .Lt => ⟨true, if a < b then 1 else 0⟩
  | .Gt => ⟨true, if a > b then 1 else 0⟩
  | .Le => ⟨true, if a ≤ b then 1 else 0⟩
  | .Ge => ⟨true, if a ≥ b then 1 else 0⟩
  | .Shl => ⟨true, u64_to_i64 ((i64_to_u64 a <<< (b % 64).toNat) % TWO64)⟩
  | .Ashl => ⟨true, u64_to_i64 ((i64_to_u64 a <<< (b % 64).toNat) % TWO64)⟩
  | .Shr => ⟨true, Int.fdiv a (2 ^ (b % 64).toNat)⟩
  | .Ashr => ⟨true, Int.fdiv a (2 ^ (b % 64).toNat)⟩
  | _ => ⟨false, 0⟩

/-- Modelled from the spec: the environment-taking `ConstEval::eval`
overload used by `elab.cpp` is not under src (only the env-less variant in
`const_eval.hpp` is).  Per §4.2 the environment maps parameter/genvar
names to integers, so `Identifier` resolves through the environment; every
other case follows `const_eval.hpp` (Number, Unary, Binary, Ternary;
anything else is not a constant). -/
def constEval (env : ConstEnv) : Expression → ConstValue
  | .Identifier id =>
      match lookupEnv env id with
      | some v => ⟨true, v⟩
      | none => ⟨false, 0⟩
  | .Number lit => ⟨true, strtoll10 lit.data⟩
  | .StringLit _ => ⟨false, 0⟩
  | .Unary op operand =>
      match operand with
      | none => ⟨false, 0⟩
      | some e =>
          let opv := constEval env e
          if ¬opv.valid then ⟨false, 0⟩
          else
            ⟨true, match op with
              | .Plus => opv.value
              | .Minus => int64_wrap (-opv.value)
              | .LogicalNot => if opv.value = 0 then 1 else 0
              | .BitNot => -opv.value - 1⟩
  | .Binary op l r =>
      match l, r with
      | some le, some re =>
          let lv := constEval env le
          let rv := constEval env re
          if ¬lv.valid ∨ ¬rv.valid then ⟨false, 0⟩
          else constBinApply op lv.value rv.value
      | _, _ => ⟨false, 0⟩
  | .Ternary c t e =>
      match c, t, e with
      | some ce, some te, some ee =>
          let cv := constEval env ce
          if ¬cv.valid then ⟨false, 0⟩
          else if cv.value ≠ 0 then constEval env te else constEval env ee
      | _, _, _ => ⟨false, 0⟩
  | .Concatenation _ => ⟨false, 0⟩
  | .Replication _ _ => ⟨false, 0⟩
  | .BitSelect _ _ => ⟨false, 0⟩

/-- `eval_int` (elab.cpp): an invalid constant silently becomes 0. -/
def eval_int (e : Expression) (env : ConstEnv) : Int :=
  let cv := constEval env e
  if cv.valid then cv.value else 0

/-! ## Genvar substitution clones (src/frontend/elab.cpp) -/

mutual

/-- `clone_expr_with_genvar`. -/
def cloneExprWithGenvar (g : String) (gv : Int) : Expression → Expression
  | .Identifier id => if id = g then .Number (toString gv) else .Identifier id
  | .Number lit => .Number lit
  | .StringLit lit => .StringLit lit
  | .Unary op operand => .Unary op (cloneOptExpr g gv operand)
  | .Binary op l r => .Binary op (cloneOptExpr g gv l) (cloneOptExpr g gv r)
  | .Ternary c t e => .Ternary (cloneOptExpr g gv c) (cloneOptExpr g gv t) (cloneOptExpr g gv e)
  | .Concatenation es => .Concatenation (cloneExprList g gv es)
  | .Replication c es => .Replication (cloneOptExpr g gv c) (cloneExprList g gv es)
  | .BitSelect l r =>
      let rc := match r with
        | none => none
        | some re =>
            let idx := cloneExprWithGenvar g gv re
            some (match idx with
              | .Identifier id2 => if id2 = g then .Number (toString gv) else .Identifier id2
              | other => other)
      .BitSelect (cloneOptExpr g gv l) rc

def cloneOptExpr (g : String) (gv : Int) : Option Expression → Option Expression
  | none => none
  | some e => some (cloneExprWithGenvar g gv e)

def cloneExprList (g : String) (gv : Int) : ExprList → ExprList
  | .nil => .nil
  | .cons e es => .cons (cloneExprWithGenvar g gv e) (cloneExprList g gv es)

end

mutual

/-- `clone_stmt_with_genvar`. -/
def cloneStmtWithGenvar (g : String) (gv : Int) : Statement → Statement
  | .Null => .Null
  | .Block stmts => .Block (cloneStmtList g gv stmts)
  | .If c t e => .If (cloneOptExpr g gv c) (cloneOptStmt g gv t) (cloneOptStmt g gv e)
  | .Case ck ce items => .Case ck (cloneOptExpr g gv ce) (cloneCaseItemList g gv items)
  | .BlockingAssign l r => .BlockingAssign (cloneOptExpr g gv l) (cloneOptExpr g gv r)
  | .NonBlockingAssign l r => .NonBlockingAssign (cloneOptExpr g gv l) (cloneOptExpr g gv r)
  | .Delay de ds => .Delay (cloneOptExpr g gv de) (cloneOptStmt g gv ds)
  | .ExprStmt e => .ExprStmt (cloneOptExpr g gv e)

def cloneOptStmt (g : String) (gv : Int) : Option Statement → Option Statement
  | none => none
  | some s => some (cloneStmtWithGenvar g gv s)

def cloneStmtList (g : String) (gv : Int) : StmtList → StmtList
  | .nil => .nil
  | .cons s ss => .cons (cloneStmtWithGenvar g gv s) (cloneStmtList g gv ss)

def cloneCaseItem (g : String) (gv : Int) : CaseItemT → CaseItemT
  | .mk ms stmt => .mk (cloneExprList g gv ms) (cloneOptStmt g gv stmt)

def cloneCaseItemList (g : String) (gv : Int) : CaseItemList → CaseItemList
  | .nil => .nil
  | .cons ci cis => .cons (cloneCaseItem g gv ci) (cloneCaseItemList g gv cis)

end

/-- `clone_always_with_genvar`. -/
def cloneAlwaysWithGenvar (g : String) (gv : Int) (a : AlwaysT) : AlwaysT :=
  { kind := a.kind
    sensitivity_list := a.sensitivity_list.map fun si =>
      { posedge := si.posedge
        negedge := si.negedge
        star := si.star
        expr := cloneOptExpr g gv si.expr }
    body := cloneOptStmt g gv a.body }

/-- `clone_initial_with_genvar`. -/
def cloneInitialWithGenvar (g : String) (gv : Int) (ic : InitialT) : InitialT :=
  { body := cloneOptStmt g gv ic.body }

/-- `clone_module_item_with_genvar`; Generate and GenVarDecl items are
cloned as bare shells (their payload is not copied). -/
def cloneModuleItemWithGenvar (g : String) (gv : Int) : ModuleItem → ModuleItem
  | .NetDecl d =>
      .NetDecl (d.map fun nd => { type := nd.type, name := nd.name, init := cloneOptExpr g gv nd.init })
  | .VarDecl d =>
      .VarDecl (d.map fun vd => { type := vd.type, name := vd.name, init := cloneOptExpr g gv vd.init })
  | .ParamDecl d =>
      .ParamDecl (d.map fun pd => { name := pd.name, value := cloneOptExpr g gv pd.value })
  | .ContinuousAssign d =>
      .ContinuousAssign (d.map fun ca => { lhs := cloneOptExpr g gv ca.lhs, rhs := cloneOptExpr g gv ca.rhs })
  | .Always d => .Always (d.map (cloneAlwaysWithGenvar g gv))
  | .Initial d => .Initial (d.map (cloneInitialWithGenvar g gv))
  | .Instance d =>
      .Instance (d.map fun inst =>
        { module_name := inst.module_name
          instance_name := inst.instance_name
          param_overrides := inst.param_overrides.map fun ov =>
            { name := ov.name, value := cloneOptExpr g gv ov.value }
          port_conns := inst.port_conns.map fun pc =>
            { port_name := pc.port_name, expr := cloneOptExpr g gv pc.expr } })
  | .Generate _ => .Generate none
  | .GenVarDecl _ => .GenVarDecl none

/-! ## Generate elaboration (src/frontend/elab.cpp, elaborateGenerate) -/

/-- The iteration values of `for (gv = start; gv < limit; gv += step)`.
The fuel `(limit - start).toNat` suffices whenever `step ≥ 1`. -/
def genvarValuesAux : Nat → Int → Int → Int → List Int
  | 0, _, _, _ => []
  | fuel + 1, gv, limit, step =>
      if gv < limit then gv :: genvarValuesAux fuel (gv + step) limit step else []

def genvarValues (start limit step : Int) : List Int :=
  genvarValuesAux (limit - start).toNat start limit step

mutual

/-- `Elaborator::elaborateGenerate`, returning the item references it
appends to `out_items` (`none` = the C++ loop would not terminate, which
happens only for a negative step with `start < limit`).  The generate-for
evaluates its bounds in a fresh empty environment, exactly as the source
does. -/
def elaborateGenerate (env : ConstEnv) : GenerateItem → Option (List ModuleItem)
  | .Block block =>
      match block with
      | none => some []
      | some (.mk _ items) => elaborateGenList env items
  | .If if_cond if_then if_else =>
      match if_cond with
      | none => do
          let a ← elabOptGenerate env if_then
          let b ← elabOptGenerate env if_else
          pure (a ++ b)
      | some c =>
          let cv := eval_int c env
          if cv ≠ 0 then elabOptGenerate env if_then else elabOptGenerate env if_else
  | .For genvar_name for_init for_cond for_step for_body =>
      match for_init, for_cond, for_step, for_body with
      | some initE, some condE, some stepE, some body =>
          match initE with
          | .Binary .Assign (some (.Identifier li)) (some r0) =>
              if li ≠ genvar_name then some []
              else
                let start := eval_int r0 []
                match condE with
                | .Binary .Lt (some (.Identifier ci)) (some r1) =>
                    if ci ≠ genvar_name then some []
                    else
                      let limit := eval_int r1 []
                      match stepE with
                      | .Binary .Assign (some (.Identifier si))
                          (some (.Binary .Add (some (.Identifier ai)) (some r2))) =>
                          if si ≠ genvar_name ∨ ai ≠ genvar_name then some []
                          else
                            let step := eval_int r2 []
                            if step = 0 then some []
                            else if step < 0 ∧ start < limit then none
                            else
                              match body with
                              | .Block (some (.mk _ bitems)) =>
                                  some ((genvarValues start limit step).flatMap fun v =>
                                    (itemListToList bitems).map
                                      (cloneModuleItemWithGenvar genvar_name v))
                              | other =>
                                  match genvarValues start limit step with
                                  | [] => some []
                                  | vs => do
                                      let sub ← elaborateGenerate env other
                                      pure (vs.flatMap fun _ => sub)
                      | _ => some []
                | _ => some []
          | _ => some []
      | _, _, _, _ => some []
  | .CaseG _ _ => some []

def elabOptGenerate (env : ConstEnv) : Option GenerateItem → Option (List ModuleItem)
  | none => some []
  | some j => elaborateGenerate env j

def elaborateGenList (env : ConstEnv) : ItemList → Option (List ModuleItem)
  | .nil => some []
  | .cons mi rest =>
      match mi with
      | .Generate (some (.mk (some j))) => do
          let a ← elaborateGenerate env j
          let b ← elaborateGenList env rest
          pure (a ++ b)
      | _ => do
          let b ← elaborateGenList env rest
          pure (mi :: b)

end

/-- `flat_items` portion of `Elaborator::elaborateModule`: every item is
pushed through except Generate constructs, which expand in place (or
vanish when their payload is null). -/
def flatItemsOfModule (env : ConstEnv) : List ModuleItem → Option (List ModuleItem)
  | [] => some []
  | mi :: rest =>
      match mi with
      | .Generate (some (.mk (some j))) => do
          let a ← elaborateGenerate env j
          let b ← flatItemsOfModule env rest
          pure (a ++ b)
      | .Generate _ => flatItemsOfModule env rest
      | _ => do
          let b ← flatItemsOfModule env rest
          pure (mi :: b)

/-! ## IR builder sensitivity lowering (src/ir/ir_builder.cpp,
IRBuilder::collectProcesses, lines 409–468) -/

/-- The `walk_or` lambda: flatten an `a or b or …` disjunction. -/
def walkOrSensitivity : Option Expression → List String
  | none => []
  | some (.Identifier id) => [id]
  | some (.Binary .LogicalOr l r) => walkOrSensitivity l ++ walkOrSensitivity r
  | some _ => []

/-- Sensitivity lowering for one always construct: a `star` item
contributes nothing (the builder leaves the list empty, deferring to the
kernel), identifiers contribute their name whether marked posedge,
negedge or plain, `or`-chains are flattened, anything else is ignored;
an empty AST sensitivity list lowers to the empty list. -/
def collectAlwaysSensitivity (alist : List SensitivityItemT) (_ak : AlwaysKind) : List String :=
  if ¬alist.isEmpty then
    alist.foldl (fun acc si =>
      if si.star then acc
      else
        match si.expr with
        | none => acc
        | some (.Identifier name) =>
            acc ++ (if si.posedge then [name] else if si.negedge then [name] else [name])
        | some (.Binary .LogicalOr l r) =>
            if ¬si.posedge ∧ ¬si.negedge then
              acc ++ walkOrSensitivity (some (.Binary .LogicalOr l r))
            else acc
        | some _ => acc) []
  else []

/-! ## Derived notions used by the theorems -/

def isComparisonOp (op : RtlBinOp) : Bool :=
  match op with
  | .Eq => true
  | .CaseEq => true
  | .Neq => true
  | .CaseNeq => true
  | .Lt => true
  | .Gt => true
  | .Le => true
  | .Ge => true
  | _ => false

/-- Operators whose result is the 1-bit `mkBit1` value. -/
def isBoolResultOp (op : RtlBinOp) : Bool :=
  match op with
  | .LogicalAnd => true
  | .LogicalOr => true
  | _ => isComparisonOp op

/-- The function of the two unsigned numeric projections that decides
each comparison in `eval_expr` (`<`, `>`, `≤`, `≥` go through the
`int64_t` casts of the projections). -/
def compProj (op : RtlBinOp) (ul ur : Nat) : Bool :=
  match op with
  | .Eq => ul = ur
  | .CaseEq => ul = ur
  | .Neq => ul ≠ ur
  | .CaseNeq => ul ≠ ur
  | .Lt => toInt64 ul < toInt64 ur
  | .Gt => toInt64 ul > toInt64 ur
  | .Le => toInt64 ul ≤ toInt64 ur
  | .Ge => toInt64 ul ≥ toInt64 ur
  | _ => false

def countTimeMarks (log : List VcdEvent) : Nat :=
  log.countP fun ev =>
    match ev with
    | .timeMark _ => true
    | .valueMark _ _ => false

/-! Occurrence of a genvar identifier inside AST nodes ("references to the
genvar"), used to state that cloning substitutes every reference. -/

mutual

def refsExprG (g : String) : Expression → Bool
  | .Identifier id => id = g
  | .Number _ => false
  | .StringLit _ => false
  | .Unary _ operand => refsOptExprG g operand
  | .Binary _ l r => refsOptExprG g l || refsOptExprG g r
  | .Ternary c t e => refsOptExprG g c || refsOptExprG g t || refsOptExprG g e
  | .Concatenation es => refsExprListG g es
  | .Replication c es => refsOptExprG g c || refsExprListG g es
  | .BitSelect l r => refsOptExprG g l || refsOptExprG g r

def refsOptExprG (g : String) : Option Expression → Bool
  | none => false
  | some e => refsExprG g e

def refsExprListG (g : String) : ExprList → Bool
  | .nil => false
  | .cons e es => refsExprG g e || refsExprListG g es

end

mutual

def refsStmtG (g : String) : Statement → Bool
  | .Null => false
  | .Block stmts => refsStmtListG g stmts
  | .If c t e => refsOptExprG g c || refsOptStmtG g t || refsOptStmtG g e
  | .Case _ ce items => refsOptExprG g ce || refsCaseItemListG g items
  | .BlockingAssign l r => refsOptExprG g l || refsOptExprG g r
  | .NonBlockingAssign l r => refsOptExprG g l || refsOptExprG g r
  | .Delay de ds => refsOptExprG g de || refsOptStmtG g ds
  | .ExprStmt e => refsOptExprG g e

def refsOptStmtG (g : String) : Option Statement → Bool
  | none => false
  | some s => refsStmtG g s

def refsStmtListG (g : String) : StmtList → Bool
  | .nil => false
  | .cons s ss => refsStmtG g s || refsStmtListG g ss

def refsCaseItemG (g : String) : CaseItemT → Bool
  | .mk ms stmt => refsExprListG g ms || refsOptStmtG g stmt

def refsCaseItemListG (g : String) : CaseItemList → Bool
  | .nil => false
  | .cons ci cis => refsCaseItemG g ci || refsCaseItemListG g cis

end

def refsSensItemG (g : String) (si : SensitivityItemT) : Bool :=
  refsOptExprG g si.expr

def refsAlwaysG (g : String) (a : AlwaysT) : Bool :=
  a.sensitivity_list.any (refsSensItemG g) || refsOptStmtG g a.body

def refsInitialG (g : String) (ic : InitialT) : Bool :=
  refsOptStmtG g ic.body

def refsInstanceG (g : String) (inst : InstanceT) : Bool :=
  inst.param_overrides.any (fun ov => refsOptExprG g ov.value) ||
    inst.port_conns.any (fun pc => refsOptExprG g pc.expr)

mutual

def refsItemG (g : String) : ModuleItem → Bool
  | .NetDecl d =>
      match d with
      | none => false
      | some nd => refsOptExprG g nd.init
  | .VarDecl d =>
      match d with
      | none => false
      | some vd => refsOptExprG g vd.init
  | .ParamDecl d =>
      match d with
      | none => false
      | some pd => refsOptExprG g pd.value
  | .ContinuousAssign d =>
      match d with
      | none => false
      | some ca => refsOptExprG g ca.lhs || refsOptExprG g ca.rhs
  | .Always d =>
      match d with
      | none => false
      | some a => refsAlwaysG g a
  | .Initial d =>
      match d with
      | none => false
      | some ic => refsInitialG g ic
  | .Instance d =>
      match d with
      | none => false
      | some inst => refsInstanceG g inst
  | .Generate gen =>
      match gen with
      | none => false
      | some (.mk item) => refsOptGenItemG g item
  | .GenVarDecl _ => false

def refsOptGenItemG (g : String) : Option GenerateItem → Bool
  | none => false
  | some j => refsGenItemG g j

def refsGenItemG (g : String) : GenerateItem → Bool
  | .Block blk =>
      match blk with
      | none => false
      | some (.mk _ items) => refsItemListG g items
  | .If c t e => refsOptExprG g c || refsOptGenItemG g t || refsOptGenItemG g e
  | .For _ i c st b =>
      refsOptExprG g i || refsOptExprG g c || refsOptExprG g st || refsOptGenItemG g b
  | .CaseG ce items => refsOptExprG g ce || refsCaseItemListG g items

def refsItemListG (g : String) : ItemList → Bool
  | .nil => false
  | .cons mi rest => refsItemG g mi || refsItemListG g rest

end

/-! Concrete fixtures used by counterexamples and witnesses. -/

/-- Arena: statement 0 is `$finish`; statement 1 is `x = 1;`. -/
def c3Arena : List RtlStmtNode :=
  [{ kind := RtlStmtKind.Finish },
   { kind := RtlStmtKind.BlockingAssign, lhs_name := "x", rhs := some (RtlExpr.ConstL ['1']) }]

/-- Two Active events queued for time 0: the finish thread (delta 0) and
the assignment thread (delta 1). -/
def c3State : KState :=
  { signals := [("x", ⟨[LX]⟩)]
    pq := [⟨⟨0, 0, SchedRegion.Active⟩, KAct.thread ⟨some 0, none, some 0⟩⟩,
           ⟨⟨0, 1, SchedRegion.Active⟩, KAct.thread ⟨some 1, none, some 1⟩⟩]
    arena := c3Arena }

/-- One tracked signal, one Active event at time 0, VCD enabled. -/
def c9State : KState :=
  { signals := [("x", ⟨[LX]⟩)]
    pq := [⟨⟨0, 0, SchedRegion.Active⟩, KAct.thread ⟨none, none, none⟩⟩]
    vcdEnabled := true }

/-- A design with the single unpacked (1-bit) net `a`, loaded. -/
def c5State : KState :=
  { signals := init_signals_from_rtl [⟨"a", { kind := DataTypeKind.Logic }⟩] }

/-- A 1-bit signal `a` with one registered level watcher. -/
def c10State : KState :=
  { signals := [("a", ⟨[L0]⟩)]
    levelW := [("a", [⟨KAct.nbaWrite "q" ⟨[L1]⟩, SchedRegion.Active⟩])] }

/-- `Mod u (.p(i));` — the canonical generate-for body item. -/
def instItem : ModuleItem :=
  ModuleItem.Instance (some
    { module_name := "Mod", instance_name := "u", param_overrides := [],
      port_conns := [{ port_name := "p", expr := some (Expression.Identifier "i") }] })

/-- `for (i = 0; i < 3; i = i + 1) begin : g  Mod u(.p(i)); end`. -/
def giCanonical : GenerateItem :=
  GenerateItem.For "i"
    (some (.Binary .Assign (some (.Identifier "i")) (some (.Number "0"))))
    (some (.Binary .Lt (some (.Identifier "i")) (some (.Number "3"))))
    (some (.Binary .Assign (some (.Identifier "i"))
      (some (.Binary .Add (some (.Identifier "i")) (some (.Number "1"))))))
    (some (.Block (some (.mk "g" (ItemList.cons instItem ItemList.nil)))))

def thenMarker : ModuleItem := ModuleItem.GenVarDecl (some ⟨"TH"⟩)

def elseMarker : ModuleItem := ModuleItem.GenVarDecl (some ⟨"EL"⟩)

/-- Generate-if whose predicate `p` is not a constant in the empty
environment. -/
def giIfUnknown : GenerateItem :=
  GenerateItem.If (some (Expression.Identifier "p"))
    (some (.Block (some (.mk "t" (ItemList.cons thenMarker ItemList.nil)))))
    (some (.Block (some (.mk "e" (ItemList.cons elseMarker ItemList.nil)))))

/-- An `@*` sensitivity item. -/
def starSensItem : SensitivityItemT := ⟨false, false, true, none⟩

/-! ## Helper lemmas -/

theorem lookupSig_insertSig (m : SigMap) (n : String) (v : Value) :
    lookupSig (insertSig m n v) n = some v := by
  induction m with
  | nil => simp [insertSig, lookupSig]
  | cons kv rest ih =>
      obtain ⟨k, w⟩ := kv
      by_cases h : k = n <;> simp [insertSig, lookupSig, h, ih]

theorem schedule_eq_set_pq (s : KState) (a : KAct) (r : SchedRegion) (d : Nat) :
    schedule s a r d =
      { s with pq := pqPush s.pq ⟨⟨s.curTime + d, if d = 0 then s.curDelta else 0, r⟩, a⟩ } := rfl

theorem scheduleWatcherList_eq_set_pq :
    ∀ (ws : List WatcherRef) (s : KState), ∃ p, scheduleWatcherList s ws = { s with pq := p } := by
  intro ws
  induction ws with
  | nil => intro s; exact ⟨s.pq, rfl⟩
  | cons w rest ih =>
      intro s
      obtain ⟨p, hp⟩ := ih (schedule s w.act w.region 0)
      refine ⟨p, ?_⟩
      simpa [scheduleWatcherList, schedule] using hp

/-- Shape analysis of `drive_signal`: an NBA drive only appends to the
NBA FIFO; an immediate drive of the stored value is a no-op; any other
immediate drive stores the value and possibly schedules watchers. -/
theorem drive_signal_cases (s : KState) (n : String) (v : Value) :
    (drive_signal s n v true = { s with nbaQueue := s.nbaQueue ++ [KAct.nbaWrite n v] }) ∧
    (lookupSig s.signals n = some v → drive_signal s n v false = s) ∧
    (lookupSig s.signals n ≠ some v →
      ∃ p, drive_signal s n v false = { s with signals := insertSig s.signals n v, pq := p }) := by
  refine ⟨rfl, ?_, ?_⟩
  · intro h
    simp [drive_signal, h]
  · intro h
    have compose : ∀ (l1 l2 : List WatcherRef) (s1 : KState),
        ∃ p, scheduleWatcherList (scheduleWatcherList s1 l1) l2 = { s1 with pq := p } := by
      intro l1 l2 s1
      obtain ⟨pa, ha⟩ := scheduleWatcherList_eq_set_pq l1 s1
      obtain ⟨pb, hb⟩ := scheduleWatcherList_eq_set_pq l2 (scheduleWatcherList s1 l1)
      exact ⟨pb, by rw [hb, ha]⟩
    have compose3 : ∀ (l1 l2 l3 : List WatcherRef) (s1 : KState),
        ∃ p, scheduleWatcherList (scheduleWatcherList (scheduleWatcherList s1 l1) l2) l3 =
          { s1 with pq := p } := by
      intro l1 l2 l3 s1
      obtain ⟨pa, ha⟩ := compose l1 l2 s1
      obtain ⟨pb, hb⟩ := scheduleWatcherList_eq_set_pq l3
        (scheduleWatcherList (scheduleWatcherList s1 l1) l2)
      exact ⟨pb, by rw [hb, ha]⟩
    have hsame : (match lookupSig s.signals n with
        | some oldv => (oldv = v : Bool)
        | none => false) = false := by
      cases hfind : lookupSig s.signals n with
      | none => simp
      | some old =>
          simp only []
          have : old ≠ v := fun he => h (by rw [hfind, he])
          simp [this]
    simp only [drive_signal, hsame, Bool.false_eq_true, if_false]
    split_ifs <;>
      first
        | exact compose3 _ _ _ _
        | exact compose _ _ _
        | exact scheduleWatcherList_eq_set_pq _ _

/-- After any `drive_signal` (immediate or NBA) the stored value under
`name` is exactly the driven value. -/
theorem drive_signal_stores (s : KState) (n : String) (v : Value) :
    lookupSig (drive_signal s n v false).signals n = some v := by
  by_cases h : lookupSig s.signals n = some v
  · rw [(drive_signal_cases s n v).2.1 h, h]
  · obtain ⟨p, hp⟩ := (drive_signal_cases s n v).2.2 h
    rw [hp]
    exact lookupSig_insertSig _ _ _

/-- Fields of the kernel state untouched by `drive_signal`. -/
theorem drive_signal_preserves (s : KState) (n : String) (v : Value) (b : Bool) :
    (drive_signal s n v b).vcdLog = s.vcdLog ∧
    (drive_signal s n v b).stopRequested = s.stopRequested ∧
    (drive_signal s n v b).arena = s.arena ∧
    (drive_signal s n v b).curTime = s.curTime ∧
    (drive_signal s n v b).curDelta = s.curDelta := by
  cases b with
  | true => exact ⟨rfl, rfl, rfl, rfl, rfl⟩
  | false =>
      by_cases h : lookupSig s.signals n = some v
      · rw [(drive_signal_cases s n v).2.1 h]
        exact ⟨rfl, rfl, rfl, rfl, rfl⟩
      · obtain ⟨p, hp⟩ := (drive_signal_cases s n v).2.2 h
        rw [hp]
        exact ⟨rfl, rfl, rfl, rfl, rfl⟩

theorem execStmt_preserves_vcdLog :
    ∀ (fuel : Nat) (s : KState) (cur : Option Nat) (ow : Option OwnerT) (en : Option Nat)
      (r : KState), execStmt fuel s cur ow en = some r → r.vcdLog = s.vcdLog := by
  intro fuel
  induction fuel with
  | zero => intro s cur ow en r h; simp [execStmt] at h
  | succ n ih =>
      intro s cur ow en r h
      cases cur with
      | some i =>
          simp only [execStmt] at h
          cases hget : s.arena.get? i with
          | none => rw [hget] at h; exact absurd h (by simp)
          | some st =>
              rw [hget] at h
              simp only [] at h
              cases hk : st.kind <;> rw [hk] at h
              · cases hr : st.rhs with
                | none =>
                    rw [hr] at h
                    exact ih _ _ _ _ _ h
                | some rexp =>
                    rw [hr] at h
                    have h1 := ih _ _ _ _ _ h
                    rw [h1, (drive_signal_preserves s st.lhs_name
                      (eval_expr s.signals rexp) false).1]
              · cases hr : st.rhs with
                | none =>
                    rw [hr] at h
                    exact ih _ _ _ _ _ h
                | some rexp =>
                    rw [hr] at h
                    have h1 := ih _ _ _ _ _ h
                    rw [h1, (drive_signal_preserves s st.lhs_name
                      (eval_expr s.signals rexp) true).1]
              · have hr : r = schedule s (KAct.thread ⟨st.next, ow, en⟩) SchedRegion.Active
                    (match st.delay_expr with
                      | some de => value_to_uint (eval_expr s.signals de)
                      | none => 0) := (Option.some.inj h).symm
                rw [hr]
                rfl
              · have hr : r = { s with stopRequested := true } := (Option.some.inj h).symm
                rw [hr]
      | none =>
          simp only [execStmt] at h
          cases ow with
          | none =>
              have hr : r = s := (Option.some.inj h).symm
              rw [hr]
          | some o =>
              simp only [] at h
              split at h
              · exact ih _ _ _ _ _ h
              · have hr : r = s := (Option.some.inj h).symm
                rw [hr]

theorem runAct_preserves_vcdLog (fuel : Nat) (s : KState) (a : KAct) (r : KState)
    (h : runAct fuel s a = some r) : r.vcdLog = s.vcdLog := by
  cases a with
  | thread th => exact execStmt_preserves_vcdLog fuel s th.stmt th.owner th.entry r h
  | nbaWrite nm v =>
      have hr : r = { s with signals := insertSig s.signals nm v } :=
        (Option.some.inj h).symm
      rw [hr]
  | contAssign lhs rhs =>
      have hr : r = drive_signal s lhs (eval_expr s.signals rhs) false :=
        (Option.some.inj h).symm
      rw [hr, (drive_signal_preserves s lhs (eval_expr s.signals rhs) false).1]

theorem runActiveRegion_preserves_vcdLog :
    ∀ (fuel : Nat) (s : KState) (t : Nat) (r : KState),
      runActiveRegion fuel s t = some r → r.vcdLog = s.vcdLog := by
  intro fuel
  induction fuel with
  | zero => intro s t r h; simp [runActiveRegion] at h
  | succ n ih =>
      intro s t r h
      simp only [runActiveRegion] at h
      cases hpq : s.pq with
      | nil =>
          rw [hpq] at h
          have hr : r = s := (Option.some.inj h).symm
          rw [hr]
      | cons e rest =>
          rw [hpq] at h
          simp only [] at h
          split at h
          · have hr : r = s := (Option.some.inj h).symm
            rw [hr]
          · split at h
            · have hr : r = s := (Option.some.inj h).symm
              rw [hr]
            · cases hact : runAct n { s with pq := rest, curDelta := s.curDelta + 1 } e.act with
              | none => rw [hact] at h; exact absurd h (by simp)
              | some s2 =>
                  rw [hact] at h
                  simp only [] at h
                  have h2 : s2.vcdLog = s.vcdLog :=
                    runAct_preserves_vcdLog n
                      { s with pq := rest, curDelta := s.curDelta + 1 } e.act s2 hact
                  split at h
                  · have hr : r = s2 := (Option.some.inj h).symm
                    rw [hr, h2]
                  · rw [ih _ _ _ h, h2]

theorem runNbaList_preserves_vcdLog :
    ∀ (q : List KAct) (fuel : Nat) (s : KState) (r : KState),
      runNbaList fuel s q = some r → r.vcdLog = s.vcdLog := by
  intro q
  induction q with
  | nil =>
      intro fuel s r h
      have hr : r = s := (Option.some.inj (by simpa [runNbaList] using h)).symm
      rw [hr]
  | cons p ps ih =>
      intro fuel s r h
      simp only [runNbaList] at h
      cases hact : runAct fuel s p with
      | none => rw [hact] at h; exact absurd h (by simp)
      | some s2 =>
          rw [hact] at h
          simp only [] at h
          have h2 : s2.vcdLog = s.vcdLog := runAct_preserves_vcdLog fuel s p s2 hact
          split at h
          · have hr : r = s2 := (Option.some.inj h).symm
            rw [hr, h2]
          · rw [ih _ _ _ h, h2]

theorem runNbaRegion_preserves_vcdLog (fuel : Nat) (s : KState) (r : KState)
    (h : runNbaRegion fuel s = some r) : r.vcdLog = s.vcdLog := by
  simp only [runNbaRegion] at h
  split at h
  · have hr : r = s := (Option.some.inj h).symm
    rw [hr]
  · exact runNbaList_preserves_vcdLog s.nbaQueue fuel { s with nbaQueue := [] } r h

/-! ## Claim C5 -/

/-- Claim C5, amended: `drive_signal` (immediate), `set_signal` and an NBA
update all store the driven value wholesale, so the stored width after the
operation equals the driven value's width — it is preserved only when the
drive happens at the signal's elaborated width. -/
theorem c5_stored_width_is_driven_width (s : KState) (name : String) (v : Value) :
    lookupSig (drive_signal s name v false).signals name = some v ∧
    (lookupSig (drive_signal s name v false).signals name).map Value.width = some v.width ∧
    lookupSig (set_signal s name v).signals name = some v ∧
    (∀ fuel, runAct fuel s (KAct.nbaWrite name v) =
      some { s with signals := insertSig s.signals name v }) ∧
    (lookupSig (insertSig s.signals name v) name).map Value.width = some v.width := by
  refine ⟨drive_signal_stores s name v, ?_, ?_, fun _ => rfl, ?_⟩
  · rw [drive_signal_stores s name v]
    rfl
  · exact lookupSig_insertSig _ _ _
  · rw [lookupSig_insertSig _ _ _]
    rfl

/-- Claim C5, counterexample: the 1-bit net `a` (all-X after
`init_signals_from_rtl`) is driven with a 2-bit value by `drive_signal`;
the stored width becomes 2, not the elaborated 1. -/
theorem c5_counterexample :
    (lookupSig c5State.signals "a").map Value.width = some 1 ∧
    (lookupSig (drive_signal c5State "a" ⟨[L0, L0]⟩ false).signals "a").map Value.width =
      some 2 ∧ (2 : Nat) ≠ 1 := by
  decide

/-! ## Claim C7 -/

/-- Claim C7 (support): `ScheduledProcess::operator<` compares only
`(time, delta, region)`, so two queue entries in the same bucket are
incomparable in both directions — the ordering the code defines cannot
reproduce push order among them, and `std::priority_queue` pops equal-key
entries in heap order, not insertion order. -/
theorem c7_same_bucket_incomparable (a b : SchedKey)
    (ht : a.time = b.time) (hd : a.delta = b.delta) (hr : a.region = b.region) :
    schedProcLt a b = false ∧ schedProcLt b a = false := by
  simp [schedProcLt, ht, hd, hr]

theorem c7_witness :
    (⟨5, 2, SchedRegion.Active⟩ : SchedKey).time = (⟨5, 2, SchedRegion.Active⟩ : SchedKey).time ∧
    (schedProcLt ⟨5, 2, SchedRegion.Active⟩ ⟨5, 2, SchedRegion.Active⟩ = false ∧
      schedProcLt ⟨5, 2, SchedRegion.Active⟩ ⟨5, 2, SchedRegion.Active⟩ = false) :=
  ⟨rfl, c7_same_bucket_incomparable ⟨5, 2, SchedRegion.Active⟩ ⟨5, 2, SchedRegion.Active⟩
    rfl rfl rfl⟩

/-! ## Claim C10 -/

/-- Claim C10: a non-blocking drive queues one closure on the NBA FIFO;
applying it writes the captured value straight into the signal map — the
resulting state differs from the input only in `signals`, so no glitch
comparison happens and no watcher is scheduled (the event queue is
unchanged), even at identical values; an immediate drive of the same
signal under a registered level watcher, by contrast, schedules it. -/
theorem c10_nba_update_writes_directly (s : KState) (name : String) (v : Value) (fuel : Nat) :
    drive_signal s name v true = { s with nbaQueue := s.nbaQueue ++ [KAct.nbaWrite name v] } ∧
    runAct fuel s (KAct.nbaWrite name v) = some { s with signals := insertSig s.signals name v } ∧
    (runAct fuel s (KAct.nbaWrite name v)).map (fun st => st.pq) = some s.pq ∧
    (drive_signal c10State "a" ⟨[L1]⟩ false).pq.length = 1 ∧
    (runAct fuel c10State (KAct.nbaWrite "a" ⟨[L1]⟩)).map (fun st => st.pq.length) = some 0 := by
  exact ⟨rfl, rfl, rfl, by decide, rfl⟩

/-! ## Claim C1 -/

/-- Claim C1, amended: an always construct written `@*` (or with an empty
event list) lowers to an *empty* sensitivity list — no synthetic
`Level("*")` entry is pushed — and at load the kernel registers no
watchers at all for an always process with an empty sensitivity list; a
process that does carry a `Level("*")` entry is registered as a level
watcher only of the signal literally named `clk` (when present in the
signal map), not of the identifiers referenced by the body's RHS. -/
theorem c1_star_sensitivity_lowering :
    (∀ (si : SensitivityItemT) (ak : AlwaysKind), si.star = true →
        collectAlwaysSensitivity [si] ak = []) ∧
    (∀ ak, collectAlwaysSensitivity [] ak = []) ∧
    (∀ sigs, registerWatchersForProcess RtlProcessKind.Always [] sigs = {}) ∧
    (∀ sigs, registerWatchersForProcess RtlProcessKind.Always
        [⟨RtlSensitivityKind.Level, "*"⟩] sigs =
      if sigs.contains "clk" then { level := ["clk"] } else {}) := by
  refine ⟨?_, ?_, ?_, ?_⟩
  · intro si ak h
    simp [collectAlwaysSensitivity, h]
  · intro ak
    simp [collectAlwaysSensitivity]
  · intro sigs
    rfl
  · intro sigs
    by_cases hc : sigs.contains "clk" <;>
      simp [registerWatchersForProcess, regAppend, hc]

/-- Claim C1, counterexample: for `always @* q = a + b;` the built
sensitivity list is empty rather than the claimed single `Level("*")`,
and even a process carrying `Level("*")` is level-registered on `clk`
alone — not on the RHS identifiers `a`, `b` that the dependency walk
would produce. -/
theorem c1_counterexample :
    collectAlwaysSensitivity [starSensItem] AlwaysKind.Always = [] ∧
    ([] : List String) ≠ ["*"] ∧
    register_expr_dependencies (.Binary .Add (.Ref "a") (.Ref "b")) = ["a", "b"] ∧
    (registerWatchersForProcess RtlProcessKind.Always
      [⟨RtlSensitivityKind.Level, "*"⟩] ["clk", "a", "b"]).level = ["clk"] ∧
    (["clk"] : List String) ≠ ["a", "b"] := by
  refine ⟨?_, by decide, by decide, by decide, by decide⟩
  simp [collectAlwaysSensitivity, starSensItem]

theorem c1_witness :
    starSensItem.star = true ∧
    collectAlwaysSensitivity [starSensItem] AlwaysKind.AlwaysComb = [] ∧
    registerWatchersForProcess RtlProcessKind.Always
      [⟨RtlSensitivityKind.Level, "*"⟩] ["clk"] = { level := ["clk"] } := by
  refine ⟨rfl, c1_star_sensitivity_lowering.1 starSensItem AlwaysKind.AlwaysComb rfl, ?_⟩
  have h := c1_star_sensitivity_lowering.2.2.2 ["clk"]
  rw [h]
  decide

/-! ## Claim C3 -/

/-- Claim C3, amended: executing a Finish statement sets the stop flag
and returns at once; the Active region then stops right after the closure
that set the flag — the remaining already-queued events of that region do
*not* run — no NBA iteration follows, the run loop returns, and pending
events stay in the queues unexecuted. -/
theorem c3_finish_stops_immediately :
    (∀ (fuel : Nat) (s : KState) (i : Nat) (ow : Option OwnerT) (en : Option Nat)
        (st : RtlStmtNode), s.arena.get? i = some st → st.kind = RtlStmtKind.Finish →
        execStmt (fuel + 1) s (some i) ow en = some { s with stopRequested := true }) ∧
    (∀ (fuel : Nat) (s : KState) (target : Nat) (e : SchedEntry) (rest : List SchedEntry)
        (s2 : KState), s.pq = e :: rest → e.key.time = target →
        regionActiveLike e.key.region = true →
        runAct fuel { s with pq := rest, curDelta := s.curDelta + 1 } e.act = some s2 →
        s2.stopRequested = true →
        runActiveRegion (fuel + 1) s target = some s2) ∧
    (∀ (fuel maxTime : Nat) (s : KState), s.stopRequested = true →
        runLoop (fuel + 1) maxTime s = some s) := by
  refine ⟨?_, ?_, ?_⟩
  · intro fuel s i ow en st hget hk
    simp only [execStmt, hget]
    rw [hk]
  · intro fuel s target e rest s2 hpq htime hreg hrun hstop
    simp only [runActiveRegion, hpq, htime, hreg, ne_eq, not_true_eq_false,
      Bool.not_true, if_false, Bool.false_eq_true]
    rw [hrun]
    simp [hstop]
  · intro fuel maxTime s hstop
    simp only [runLoop]
    cases s.pq with
    | nil => rfl
    | cons e rest => simp [hstop]

/-- Claim C3, counterexample: two Active events are queued for time 0;
the first executes `$finish`, and the second (`x = 1;`) is *retained but
never run* — `x` stays X and one event remains queued, where the claim
says the remaining events of the region still run. -/
theorem c3_counterexample :
    (runKernel 10 0 c3State).map
        (fun s => (s.pq.length, s.stopRequested, lookupSig s.signals "x")) =
      some (1, true, some ⟨[LX]⟩) ∧
    (runKernel 10 0 c3State).map (fun s => lookupSig s.signals "x") ≠
      some (some ⟨[L1]⟩) := by
  decide

theorem c3_witness :
    c3State.arena.get? 0 = some { kind := RtlStmtKind.Finish } ∧
    execStmt 1 c3State (some 0) none (some 0) = some { c3State with stopRequested := true } ∧
    runLoop 1 0 { c3State with stopRequested := true } =
      some { c3State with stopRequested := true } :=
  ⟨rfl,
   c3_finish_stops_immediately.1 0 c3State 0 none (some 0) { kind := RtlStmtKind.Finish }
     rfl rfl,
   c3_finish_stops_immediately.2.2 0 0 { c3State with stopRequested := true } rfl⟩

/-! ## Claim C9 -/

/-- Claim C9, amended: per outer iteration of `run` the kernel emits VCD
exactly once — at the head of the loop, before the Active region — with
the time mark followed by every tracked signal's value; neither the
Active region nor the NBA region ever appends to the VCD log, so there is
no second emission after NBA drains. -/
theorem c9_vcd_emitted_once_per_time :
    (∀ (fuel : Nat) (s : KState) (t : Nat) (r : KState),
        runActiveRegion fuel s t = some r → r.vcdLog = s.vcdLog) ∧
    (∀ (fuel : Nat) (s : KState) (r : KState),
        runNbaRegion fuel s = some r → r.vcdLog = s.vcdLog) ∧
    (∀ (s : KState) (t : Nat), s.vcdEnabled = true →
        (emitVcd s t).vcdLog = s.vcdLog ++ [VcdEvent.timeMark t] ++
          s.signals.map (fun kv => VcdEvent.valueMark kv.1 kv.2)) ∧
    (∀ (s : KState) (t : Nat) (nm : String) (vv : Value), s.vcdEnabled = true →
        (nm, vv) ∈ s.signals → VcdEvent.valueMark nm vv ∈ (emitVcd s t).vcdLog) := by
  refine ⟨runActiveRegion_preserves_vcdLog, runNbaRegion_preserves_vcdLog, ?_, ?_⟩
  · intro s t h
    simp [emitVcd, h]
  · intro s t nm vv h hmem
    simp only [emitVcd, h, if_true]
    simp only [List.mem_append, List.mem_map]
    right
    exact ⟨(nm, vv), hmem, rfl⟩

/-- Claim C9, counterexample: for a run that executes events at exactly
one time (t = 0) with VCD enabled, the log holds exactly one time mark,
not the two the claim requires. -/
theorem c9_counterexample :
    (runKernel 10 0 c9State).map (fun s => countTimeMarks s.vcdLog) = some 1 ∧
    (1 : Nat) ≠ 2 := by
  decide

theorem c9_witness :
    c9State.vcdEnabled = true ∧
    (emitVcd c9State 0).vcdLog = c9State.vcdLog ++ [VcdEvent.timeMark 0] ++
      c9State.signals.map (fun kv => VcdEvent.valueMark kv.1 kv.2) ∧
    runActiveRegion 1 c9State 5 = some c9State ∧
    c9State.vcdLog = c9State.vcdLog ∧
    VcdEvent.valueMark "x" ⟨[LX]⟩ ∈ (emitVcd c9State 0).vcdLog :=
  ⟨rfl,
   c9_vcd_emitted_once_per_time.2.2.1 c9State 0 rfl,
   rfl,
   c9_vcd_emitted_once_per_time.1 1 c9State 5 c9State rfl,
   c9_vcd_emitted_once_per_time.2.2.2 c9State 0 "x" ⟨[LX]⟩ rfl (by decide)⟩

/-! ## Value-width lemmas -/

theorem copyLowBits_width (w : Nat) (v : Value) : (copyLowBits w v).width = w := by
  simp [copyLowBits, Value.width]

theorem copyLowBits_get (w : Nat) (v : Value) (i : Nat) (h : i < w) :
    (copyLowBits w v).get i = if i < v.width then v.get i else LX := by
  simp only [copyLowBits, Value.get]
  rw [List.getD_eq_getElem?_getD]
  simp [List.getElem?_map, List.getElem?_range, h]

theorem extendValue_width (w : Nat) (v : Value) : (extendValue w v).width = w := by
  by_cases h : v.width = w <;> simp [extendValue, h, copyLowBits_width]

theorem extendValue_self (v : Value) : extendValue v.width v = v := by
  simp [extendValue]

theorem extendValue_get_low (w : Nat) (v : Value) (i : Nat) (h1 : i < v.width) (h2 : i < w) :
    (extendValue w v).get i = v.get i := by
  by_cases h : v.width = w
  · simp [extendValue, h]
  · rw [extendValue, if_neg h, copyLowBits_get w v i h2, if_pos h1]

theorem extendValue_get_high (w : Nat) (v : Value) (i : Nat) (h1 : v.width ≤ i) (h2 : i < w) :
    (extendValue w v).get i = LX := by
  by_cases h : v.width = w
  · subst h
    exact absurd h2 (by omega)
  · rw [extendValue, if_neg h, copyLowBits_get w v i h2, if_neg (by omega)]

theorem value_to_uint_extendValue (w : Nat) (v : Value) (h1 : v.width ≤ w) (h2 : w ≤ 64) :
    value_to_uint (extendValue w v) = value_to_uint v := by
  by_cases h : v.width = w
  · rw [extendValue, if_pos h]
  · have hv64 : v.width ≤ 64 := le_trans h1 h2
    rw [extendValue, if_neg h]
    unfold value_to_uint
    rw [copyLowBits_width, Nat.min_eq_left h2, Nat.min_eq_left hv64]
    have hrange : List.range w =
        List.range v.width ++ (List.range (w - v.width)).map (fun i => v.width + i) := by
      conv_lhs => rw [show w = v.width + (w - v.width) by omega]
      exact List.range_add v.width (w - v.width)
    rw [hrange, List.map_append, List.sum_append]
    have hfirst : (List.range v.width).map
          (fun i => if (copyLowBits w v).get i = L1 then 2 ^ i else 0) =
        (List.range v.width).map (fun i => if v.get i = L1 then 2 ^ i else 0) := by
      apply List.map_congr_left
      intro i hi
      have hi' := List.mem_range.mp hi
      rw [copyLowBits_get w v i (by omega), if_pos hi']
    have hsecond : (((List.range (w - v.width)).map (fun i => v.width + i)).map
        (fun i => if (copyLowBits w v).get i = L1 then 2 ^ i else 0)).sum = 0 := by
      apply List.sum_eq_zero
      intro x hx
      simp only [List.mem_map, List.mem_range] at hx
      obtain ⟨j, ⟨i, hi, rfl⟩, rfl⟩ := hx
      rw [copyLowBits_get w v (v.width + i) (by omega),
        if_neg (show ¬(v.width + i < v.width) by omega)]
      simp
    rw [hfirst, hsecond]
    omega

theorem from_uint_width (w : Nat) (x : Nat) : (Value.from_uint w x).width = w := by
  simp [Value.from_uint, Value.width]

theorem mkBit1_width (b : Bool) : (mkBit1 b).width = 1 := rfl

/-! ## Claim C4 -/

/-- Claim C4, amended: for binary operations the narrower operand is
extended to the wider width with X bits (not logic 0); X bits project to
0 under `value_to_uint`, so the arithmetic outcome matches
zero-extension; the wider operand is never truncated (extension at its
own width is the identity); arithmetic, shift and bitwise results have
width `max(widths)` (minimum 1), while comparisons and logical operators
yield 1-bit results. -/
theorem c4_x_extension_and_result_width :
    (∀ (v : Value) (w i : Nat), v.width ≤ i → i < w → (extendValue w v).get i = LX) ∧
    (∀ (v : Value) (w i : Nat), i < v.width → i < w → (extendValue w v).get i = v.get i) ∧
    (∀ v : Value, extendValue v.width v = v) ∧
    (∀ (v : Value) (w : Nat), v.width ≤ w → w ≤ 64 →
        value_to_uint (extendValue w v) = value_to_uint v) ∧
    (∀ (op : RtlBinOp) (a b : Value), isBoolResultOp op = false →
        (evalBinary op a b).width = max 1 (max a.width b.width)) ∧
    (∀ (op : RtlBinOp) (a b : Value), isBoolResultOp op = true →
        (evalBinary op a b).width = 1) := by
  refine ⟨fun v w i h1 h2 => extendValue_get_high w v i h1 h2,
    fun v w i h1 h2 => extendValue_get_low w v i h1 h2,
    extendValue_self,
    fun v w h1 h2 => value_to_uint_extendValue w v h1 h2, ?_, ?_⟩
  · intro op a b hop
    have hW : (if max a.width b.width = 0 then 1 else max a.width b.width) =
        max 1 (max a.width b.width) := by
      split <;> omega
    have hz : ∀ f : Logic4 → Logic4 → Logic4, ∀ W : Nat,
        (Value.mk (List.zipWith f (extendValue W a).bits (extendValue W b).bits)).width = W := by
      intro f W
      have la : (extendValue W a).bits.length = W := extendValue_width W a
      have lb : (extendValue W b).bits.length = W := extendValue_width W b
      simp [Value.width, List.length_zipWith, la, lb]
    cases op <;>
      first
        | exact absurd hop (by decide)
        | simpa only [evalBinary, from_uint_width] using hW
        | (simp only [evalBinary]; rw [hz _ _]; exact hW)
  · intro op a b hop
    cases op <;>
      first
        | exact absurd hop (by decide)
        | rfl

/-- Claim C4, counterexample: `and` of a 1-bit value `1` with the 2-bit
value `11` extends the narrow operand with an X bit, giving `[1, X]`; the
claimed zero-extension would give `[1, 0]`. -/
theorem c4_counterexample :
    evalBinary RtlBinOp.And ⟨[L1]⟩ ⟨[L1, L1]⟩ = ⟨[L1, LX]⟩ ∧
    (⟨[L1, LX]⟩ : Value) ≠ ⟨[L1, L0]⟩ := by
  decide

theorem c4_witness :
    (⟨[L1]⟩ : Value).width ≤ 1 ∧ (1 : Nat) < 2 ∧
    (extendValue 2 ⟨[L1]⟩).get 1 = LX ∧
    isBoolResultOp RtlBinOp.Add = false ∧
    (evalBinary RtlBinOp.Add ⟨[L1]⟩ ⟨[L1, L1]⟩).width =
      max 1 (max (⟨[L1]⟩ : Value).width (⟨[L1, L1]⟩ : Value).width) :=
  ⟨by decide, by decide,
   c4_x_extension_and_result_width.1 ⟨[L1]⟩ 2 1 (by decide) (by decide),
   rfl,
   c4_x_extension_and_result_width.2.2.2.2.1 RtlBinOp.Add ⟨[L1]⟩ ⟨[L1, L1]⟩ rfl⟩

/-! ## Claim C8 -/

/-- Claim C8: every comparison evaluates to a 1-bit value computed from
the unsigned numeric projections of its operands (`value_to_uint`, where
1-bits contribute their positional weight and X/Z contribute 0), for all
operand widths up to 64; `===`/`!==` (CaseEq/CaseNeq) compute exactly the
same results as `==`/`!=` on every input. -/
theorem c8_comparisons_from_projection (op : RtlBinOp) (hop : isComparisonOp op = true)
    (a b : Value) (ha : a.width ≤ 64) (hb : b.width ≤ 64) :
    evalBinary op a b = mkBit1 (compProj op (value_to_uint a) (value_to_uint b)) ∧
    (evalBinary op a b).width = 1 ∧
    (∀ x y : Value, evalBinary RtlBinOp.CaseEq x y = evalBinary RtlBinOp.Eq x y ∧
      evalBinary RtlBinOp.CaseNeq x y = evalBinary RtlBinOp.Neq x y) := by
  have hwa : a.width ≤ (if max a.width b.width = 0 then 1 else max a.width b.width) := by
    split <;> omega
  have hwb : b.width ≤ (if max a.width b.width = 0 then 1 else max a.width b.width) := by
    split <;> omega
  have hw64 : (if max a.width b.width = 0 then 1 else max a.width b.width) ≤ 64 := by
    split <;> omega
  have hua := value_to_uint_extendValue _ a hwa hw64
  have hub := value_to_uint_extendValue _ b hwb hw64
  refine ⟨?_, ?_, fun x y => ⟨rfl, rfl⟩⟩
  · cases op <;>
      first
        | exact absurd hop (by decide)
        | (simp only [evalBinary, compProj]; rw [hua, hub])
  · cases op <;>
      first
        | exact absurd hop (by decide)
        | rfl

theorem c8_witness :
    isComparisonOp RtlBinOp.Lt = true ∧
    (⟨[L1]⟩ : Value).width ≤ 64 ∧ (⟨[L0, L1]⟩ : Value).width ≤ 64 ∧
    evalBinary RtlBinOp.Lt ⟨[L1]⟩ ⟨[L0, L1]⟩ =
      mkBit1 (compProj RtlBinOp.Lt (value_to_uint ⟨[L1]⟩) (value_to_uint ⟨[L0, L1]⟩)) :=
  ⟨rfl, by decide, by decide,
   (c8_comparisons_from_projection RtlBinOp.Lt rfl ⟨[L1]⟩ ⟨[L0, L1]⟩
     (by decide) (by decide)).1⟩

/-! ## Claim C6 -/

/-- Claim C6, amended: a generate-if takes the then-branch when the
predicate const-evaluates to a non-zero constant and the else-branch when
it evaluates to zero; a predicate that is *not* constant in the
environment evaluates as 0 (the validity flag is dropped by `eval_int`),
so the else-branch — not "no items" — is included; a missing predicate
expression includes both branches. -/
theorem c6_generate_if (env : ConstEnv) (c : Expression) (t e : Option GenerateItem) :
    ((constEval env c).valid = true → (constEval env c).value ≠ 0 →
        elaborateGenerate env (.If (some c) t e) = elabOptGenerate env t) ∧
    ((constEval env c).valid = true → (constEval env c).value = 0 →
        elaborateGenerate env (.If (some c) t e) = elabOptGenerate env e) ∧
    ((constEval env c).valid = false →
        elaborateGenerate env (.If (some c) t e) = elabOptGenerate env e) ∧
    (elaborateGenerate env (.If none t e) = do
        let a ← elabOptGenerate env t
        let b ← elabOptGenerate env e
        pure (a ++ b)) := by
  have hIf : elaborateGenerate env (.If (some c) t e) =
      if eval_int c env ≠ 0 then elabOptGenerate env t else elabOptGenerate env e := rfl
  refine ⟨?_, ?_, ?_, rfl⟩
  · intro hv hnz
    rw [hIf, if_pos (show eval_int c env ≠ 0 by
      simp only [eval_int, hv, if_true]; exact hnz)]
  · intro hv hz
    rw [hIf, if_neg (show ¬eval_int c env ≠ 0 by
      simp only [eval_int, hv, if_true, hz, ne_eq, not_not])]
  · intro hv
    rw [hIf, if_neg (show ¬eval_int c env ≠ 0 by
      simp [eval_int, hv])]

/-- Claim C6, counterexample: the predicate `p` is unknown in the empty
environment, yet elaboration includes the else-branch marker item rather
than dropping both branches. -/
theorem c6_counterexample :
    (constEval [] (Expression.Identifier "p")).valid = false ∧
    elaborateGenerate [] giIfUnknown = some [elseMarker] ∧
    some [elseMarker] ≠ (some [] : Option (List ModuleItem)) := by
  refine ⟨rfl, rfl, by simp⟩

/-! ## Clone-substitution lemmas for C2 -/

mutual

theorem cloneExpr_clean (g : String) (gv : Int) (e : Expression) :
    refsExprG g (cloneExprWithGenvar g gv e) = false := by
  cases e with
  | Identifier id =>
      by_cases h : id = g <;> simp [cloneExprWithGenvar, refsExprG, h]
  | Number lit => rfl
  | StringLit lit => rfl
  | Unary op operand =>
      simpa only [cloneExprWithGenvar, refsExprG] using cloneOptExpr_clean g gv operand
  | Binary op l r =>
      simp only [cloneExprWithGenvar, refsExprG, Bool.or_eq_false_iff]
      exact ⟨cloneOptExpr_clean g gv l, cloneOptExpr_clean g gv r⟩
  | Ternary c t e2 =>
      simp only [cloneExprWithGenvar, refsExprG, Bool.or_eq_false_iff]
      exact ⟨⟨cloneOptExpr_clean g gv c, cloneOptExpr_clean g gv t⟩,
        cloneOptExpr_clean g gv e2⟩
  | Concatenation es =>
      simpa only [cloneExprWithGenvar, refsExprG] using cloneExprList_clean g gv es
  | Replication c es =>
      simp only [cloneExprWithGenvar, refsExprG, Bool.or_eq_false_iff]
      exact ⟨cloneOptExpr_clean g gv c, cloneExprList_clean g gv es⟩
  | BitSelect l r =>
      cases r with
      | none =>
          simp only [cloneExprWithGenvar, refsExprG, Bool.or_eq_false_iff]
          exact ⟨cloneOptExpr_clean g gv l, rfl⟩
      | some re =>
          simp only [cloneExprWithGenvar, refsExprG, Bool.or_eq_false_iff]
          refine ⟨cloneOptExpr_clean g gv l, ?_⟩
          have hidx := cloneExpr_clean g gv re
          cases hc : cloneExprWithGenvar g gv re
          case Identifier id2 =>
            rw [hc] at hidx
            have h2 : ¬(id2 = g) := by simpa [refsExprG] using hidx
            simp [refsOptExprG, refsExprG, h2]
          all_goals (rw [hc] at hidx; simpa [refsOptExprG] using hidx)

theorem cloneOptExpr_clean (g : String) (gv : Int) (o : Option Expression) :
    refsOptExprG g (cloneOptExpr g gv o) = false := by
  cases o with
  | none => rfl
  | some e => simpa only [cloneOptExpr, refsOptExprG] using cloneExpr_clean g gv e

theorem cloneExprList_clean (g : String) (gv : Int) (es : ExprList) :
    refsExprListG g (cloneExprList g gv es) = false := by
  cases es with
  | nil => rfl
  | cons e rest =>
      simp only [cloneExprList, refsExprListG, Bool.or_eq_false_iff]
      exact ⟨cloneExpr_clean g gv e, cloneExprList_clean g gv rest⟩

end

mutual

theorem cloneStmt_clean (g : String) (gv : Int) (s : Statement) :
    refsStmtG g (cloneStmtWithGenvar g gv s) = false := by
  cases s with
  | Null => rfl
  | Block stmts =>
      simpa only [cloneStmtWithGenvar, refsStmtG] using cloneStmtList_clean g gv stmts
  | If c t e =>
      simp only [cloneStmtWithGenvar, refsStmtG, Bool.or_eq_false_iff]
      exact ⟨⟨cloneOptExpr_clean g gv c, cloneOptStmt_clean g gv t⟩,
        cloneOptStmt_clean g gv e⟩
  | Case ck ce items =>
      simp only [cloneStmtWithGenvar, refsStmtG, Bool.or_eq_false_iff]
      exact ⟨cloneOptExpr_clean g gv ce, cloneCaseItemList_clean g gv items⟩
  | BlockingAssign l r =>
      simp only [cloneStmtWithGenvar, refsStmtG, Bool.or_eq_false_iff]
      exact ⟨cloneOptExpr_clean g gv l, cloneOptExpr_clean g gv r⟩
  | NonBlockingAssign l r =>
      simp only [cloneStmtWithGenvar, refsStmtG, Bool.or_eq_false_iff]
      exact ⟨cloneOptExpr_clean g gv l, cloneOptExpr_clean g gv r⟩
  | Delay de ds =>
      simp only [cloneStmtWithGenvar, refsStmtG, Bool.or_eq_false_iff]
      exact ⟨cloneOptExpr_clean g gv de, cloneOptStmt_clean g gv ds⟩
  | ExprStmt e =>
      simpa only [cloneStmtWithGenvar, refsStmtG] using cloneOptExpr_clean g gv e

theorem cloneOptStmt_clean (g : String) (gv : Int) (o : Option Statement) :
    refsOptStmtG g (cloneOptStmt g gv o) = false := by
  cases o with
  | none => rfl
  | some s => simpa only [cloneOptStmt, refsOptStmtG] using cloneStmt_clean g gv s

theorem cloneStmtList_clean (g : String) (gv : Int) (ss : StmtList) :
    refsStmtListG g (cloneStmtList g gv ss) = false := by
  cases ss with
  | nil => rfl
  | cons s rest =>
      simp only [cloneStmtList, refsStmtListG, Bool.or_eq_false_iff]
      exact ⟨cloneStmt_clean g gv s, cloneStmtList_clean g gv rest⟩

theorem cloneCaseItem_clean (g : String) (gv : Int) (ci : CaseItemT) :
    refsCaseItemG g (cloneCaseItem g gv ci) = false := by
  cases ci with
  | mk ms stmt =>
      simp only [cloneCaseItem, refsCaseItemG, Bool.or_eq_false_iff]
      exact ⟨cloneExprList_clean g gv ms, cloneOptStmt_clean g gv stmt⟩

theorem cloneCaseItemList_clean (g : String) (gv : Int) (cis : CaseItemList) :
    refsCaseItemListG g (cloneCaseItemList g gv cis) = false := by
  cases cis with
  | nil => rfl
  | cons ci rest =>
      simp only [cloneCaseItemList, refsCaseItemListG, Bool.or_eq_false_iff]
      exact ⟨cloneCaseItem_clean g gv ci, cloneCaseItemList_clean g gv rest⟩

end

theorem cloneAlways_clean (g : String) (gv : Int) (a : AlwaysT) :
    refsAlwaysG g (cloneAlwaysWithGenvar g gv a) = false := by
  simp only [cloneAlwaysWithGenvar, refsAlwaysG, Bool.or_eq_false_iff]
  constructor
  · rw [List.any_map, List.any_eq_false]
    intro si hsi
    simp [Function.comp, refsSensItemG, cloneOptExpr_clean]
  · exact cloneOptStmt_clean g gv a.body

theorem cloneInitial_clean (g : String) (gv : Int) (ic : InitialT) :
    refsInitialG g (cloneInitialWithGenvar g gv ic) = false := by
  simpa only [cloneInitialWithGenvar, refsInitialG] using cloneOptStmt_clean g gv ic.body

theorem cloneInstance_clean (g : String) (gv : Int) (inst : InstanceT) :
    refsInstanceG g
      { module_name := inst.module_name
        instance_name := inst.instance_name
        param_overrides := inst.param_overrides.map fun ov =>
          { name := ov.name, value := cloneOptExpr g gv ov.value }
        port_conns := inst.port_conns.map fun pc =>
          { port_name := pc.port_name, expr := cloneOptExpr g gv pc.expr } } = false := by
  simp only [refsInstanceG, Bool.or_eq_false_iff]
  constructor
  · rw [List.any_map, List.any_eq_false]
    intro ov hov
    simp [Function.comp, cloneOptExpr_clean]
  · rw [List.any_map, List.any_eq_false]
    intro pc hpc
    simp [Function.comp, cloneOptExpr_clean]

/-- Every genvar reference in a cloned module item has been substituted
away. -/
theorem cloneModuleItem_clean (g : String) (gv : Int) (mi : ModuleItem) :
    refsItemG g (cloneModuleItemWithGenvar g gv mi) = false := by
  cases mi with
  | NetDecl d =>
      cases d <;> simp [cloneModuleItemWithGenvar, refsItemG, cloneOptExpr_clean]
  | VarDecl d =>
      cases d <;> simp [cloneModuleItemWithGenvar, refsItemG, cloneOptExpr_clean]
  | ParamDecl d =>
      cases d <;> simp [cloneModuleItemWithGenvar, refsItemG, cloneOptExpr_clean]
  | ContinuousAssign d =>
      cases d <;> simp [cloneModuleItemWithGenvar, refsItemG, cloneOptExpr_clean]
  | Always d =>
      cases d <;> simp [cloneModuleItemWithGenvar, refsItemG, cloneAlways_clean]
  | Initial d =>
      cases d <;> simp [cloneModuleItemWithGenvar, refsItemG, cloneInitial_clean]
  | Instance d =>
      cases d with
      | none => rfl
      | some inst =>
          simpa [cloneModuleItemWithGenvar, refsItemG] using cloneInstance_clean g gv inst
  | Generate gen => rfl
  | GenVarDecl d => rfl

/-! ## Iteration values of the generate-for -/

theorem genvarValuesAux_step_one (n : Nat) :
    ∀ a : Int, genvarValuesAux n a (a + n) 1 =
      (List.range n).map (fun (k : Nat) => a + (k : Int)) := by
  induction n with
  | zero => intro a; simp [genvarValuesAux]
  | succ m ih =>
      intro a
      have hlt : a < a + ((m + 1 : Nat) : Int) := by push_cast; omega
      have hshift : a + ((m + 1 : Nat) : Int) = (a + 1) + (m : Int) := by push_cast; ring
      rw [genvarValuesAux, if_pos hlt, hshift, ih (a + 1),
        List.range_succ_eq_map, List.map_cons, List.map_map]
      refine congrArg₂ List.cons (by push_cast; ring) ?_
      apply List.map_congr_left
      intro k hk
      simp only [Function.comp]
      push_cast
      ring

theorem genvarValues_canonical (N : Nat) :
    genvarValues 0 N 1 = (List.range N).map (fun (k : Nat) => (k : Int)) := by
  unfold genvarValues
  have h1 : ((N : Int) - 0).toNat = N := by simp
  rw [h1]
  have h := genvarValuesAux_step_one N 0
  simpa using h

/-- Definitional reduction of the restricted-form generate-for with a
block body. -/
theorem elabGenerate_for_block (env : ConstEnv) (g : String) (r0 r1 r2 : Expression)
    (bn : String) (bitems : ItemList) :
    elaborateGenerate env (GenerateItem.For g
      (some (.Binary .Assign (some (.Identifier g)) (some r0)))
      (some (.Binary .Lt (some (.Identifier g)) (some r1)))
      (some (.Binary .Assign (some (.Identifier g))
        (some (.Binary .Add (some (.Identifier g)) (some r2)))))
      (some (.Block (some (.mk bn bitems))))) =
    (if eval_int r2 [] = 0 then some []
     else if eval_int r2 [] < 0 ∧ eval_int r0 [] < eval_int r1 [] then none
     else some ((genvarValues (eval_int r0 []) (eval_int r1 []) (eval_int r2 [])).flatMap
       fun v => (itemListToList bitems).map (cloneModuleItemWithGenvar g v))) := by
  have hgg : ¬(g ≠ g) := fun h => h rfl
  have hor : ¬(g ≠ g ∨ g ≠ g) := by simp
  show (if g ≠ g then (some [] : Option (List ModuleItem)) else
    if g ≠ g then some [] else
    if g ≠ g ∨ g ≠ g then some [] else
    if eval_int r2 [] = 0 then some [] else
    if eval_int r2 [] < 0 ∧ eval_int r0 [] < eval_int r1 [] then none
    else some ((genvarValues (eval_int r0 []) (eval_int r1 []) (eval_int r2 [])).flatMap
      fun v => (itemListToList bitems).map (cloneModuleItemWithGenvar g v))) = _
  rw [if_neg hgg, if_neg hgg, if_neg hor]

/-! ## Claim C2 -/

/-- Claim C2: elaborating `for (g = C0; g < C1; g = g + C2)` with a block
body appends, per iteration value in iteration order, one clone of each
body item with every genvar reference substituted by that iteration's
integer literal; a zero step terminates the loop with nothing appended;
for the canonical `for(i=0;i<N;i=i+1)` the iteration values are 0…N-1;
clones contain no remaining genvar reference, and a genvar identifier
clones to the literal of the iteration value. -/
theorem c2_generate_for_unrolls (env : ConstEnv) (g : String) (r0 r1 r2 : Expression)
    (bn : String) (bitems : ItemList) (gi : GenerateItem) (C0 C1v C2v : Int)
    (hgi : gi = GenerateItem.For g
      (some (.Binary .Assign (some (.Identifier g)) (some r0)))
      (some (.Binary .Lt (some (.Identifier g)) (some r1)))
      (some (.Binary .Assign (some (.Identifier g))
        (some (.Binary .Add (some (.Identifier g)) (some r2)))))
      (some (.Block (some (.mk bn bitems)))))
    (h0 : eval_int r0 [] = C0) (h1 : eval_int r1 [] = C1v) (h2 : eval_int r2 [] = C2v) :
    (0 < C2v → elaborateGenerate env gi =
      some ((genvarValues C0 C1v C2v).flatMap fun v =>
        (itemListToList bitems).map (cloneModuleItemWithGenvar g v))) ∧
    (C2v = 0 → elaborateGenerate env gi = some []) ∧
    (∀ rest : List ModuleItem,
      flatItemsOfModule env (ModuleItem.Generate (some (.mk (some gi))) :: rest) = do
        let a ← elaborateGenerate env gi
        let b ← flatItemsOfModule env rest
        pure (a ++ b)) ∧
    (∀ N : Nat, genvarValues 0 N 1 = (List.range N).map (fun (k : Nat) => (k : Int))) ∧
    (∀ (v : Int) (mi : ModuleItem), refsItemG g (cloneModuleItemWithGenvar g v mi) = false) ∧
    (∀ v : Int, cloneExprWithGenvar g v (.Identifier g) = .Number (toString v)) := by
  subst hgi
  refine ⟨?_, ?_, fun rest => rfl, genvarValues_canonical,
    fun v mi => cloneModuleItem_clean g v mi, fun v => by simp [cloneExprWithGenvar]⟩
  · intro hpos
    rw [elabGenerate_for_block, h0, h1, h2, if_neg (by omega), if_neg (by omega)]
  · intro hz
    rw [elabGenerate_for_block, h2, if_pos hz]

theorem c2_witness :
    eval_int (.Number "0") [] = 0 ∧ eval_int (.Number "3") [] = 3 ∧
    eval_int (.Number "1") [] = 1 ∧ (0 : Int) < 1 ∧
    elaborateGenerate [] giCanonical =
      some ((genvarValues 0 3 1).flatMap fun v =>
        (itemListToList (ItemList.cons instItem ItemList.nil)).map
          (cloneModuleItemWithGenvar "i" v)) :=
  ⟨rfl, rfl, rfl, by decide,
   (c2_generate_for_unrolls [] "i" (.Number "0") (.Number "3") (.Number "1") "g"
     (ItemList.cons instItem ItemList.nil) giCanonical 0 3 1 rfl rfl rfl rfl).1
     (by decide)⟩

theorem c6_witness :
    (constEval [] (Expression.Number "1")).valid = true ∧
    (constEval [] (Expression.Number "1")).value ≠ 0 ∧
    elaborateGenerate []
        (.If (some (.Number "1"))
          (some (.Block (some (.mk "t" (ItemList.cons thenMarker ItemList.nil))))) none) =
      elabOptGenerate []
        (some (.Block (some (.mk "t" (ItemList.cons thenMarker ItemList.nil))))) :=
  ⟨rfl, by decide,
   (c6_generate_if [] (.Number "1")
     (some (.Block (some (.mk "t" (ItemList.cons thenMarker ItemList.nil))))) none).1
     rfl (by decide)⟩

end EdaTool
